import Mathlib

/-! EduTrack (`src/src/App.jsx`): per-user partitions, CRUD, authentication and
the derived views.

A shallow embedding of the state-management core of the `App` component.

* The five persisted `useLocalStorage` cells (`users`, `currentUser`,
  `classesMap`, `assignMap`, `dark`) form the record `AppState`.
* Every handler of the component is a function from the state it sees to the
  state it leaves. The handlers that call `uid()` (which reads
  `Math.random`) take the generated id as an explicit argument `newId`.
* A JavaScript object is a finite map from property names to values; it is
  modelled by its lookup function, `none` standing for an absent property.
  Two objects with the same properties and values are therefore equal; the
  enumeration order of the properties is not modelled.
* What the host supplies is a parameter: the collation `localeCompare`, the
  clock (`Now`, `getDay`), the time zone (`localMidnight`) and the reading of
  a date string by `new Date` (`dateValue`).
-/

namespace EduTrack

/-! ## Values and objects -/

/-- The JSON values that entries hold: strings (`id`, `day`, `startTime`,
`dueDate`, ...) and booleans (`completed`). -/
inductive Val where
  | str (s : String)
  | bool (b : Bool)
  deriving DecidableEq, Repr

/-- A JavaScript object, as its property lookup (`none`: no such property). -/
abbrev Obj := String → Option Val

/-- The empty object literal. -/
def Obj.empty : Obj := fun _ => none

/-- The assignment `o[k] = v` on a copy of `o`. -/
def Obj.set (o : Obj) (k : String) (v : Val) : Obj :=
  fun k' => if k' = k then some v else o k'

/-- An object literal with the given properties, written left to right (a
repeated name keeps the last value, as in JavaScript). -/
def Obj.lit (ps : List (String × Val)) : Obj :=
  ps.foldl (fun o kv => o.set kv.1 kv.2) Obj.empty

/-- The spread of two objects: every property of `b`, and the properties of
`a` that `b` does not name. -/
def Obj.spread (a b : Obj) : Obj :=
  fun k => match b k with
    | some v => some v
    | none => a k

/-- The string held by property `k`, if the property is there and is a string. -/
def Obj.strField (o : Obj) (k : String) : Option String :=
  match o k with
  | some (Val.str s) => some s
  | _ => none

/-- The map from user ids to entry lists (`classesMap`, `assignMap`), as its
lookup: `none` when the id is not a key. -/
abbrev ListMap := String → Option (List Obj)

/-- The object literal without keys, the initial value of both maps. -/
def ListMap.empty : ListMap := fun _ => none

/-- The assignment `nxt[k] = l` on a copy of the map. -/
def ListMap.set (m : ListMap) (k : String) (l : List Obj) : ListMap :=
  fun k' => if k' = k then some l else m k'

/-- The statement `delete nxt[k]` on a copy of the map. -/
def ListMap.erase (m : ListMap) (k : String) : ListMap :=
  fun k' => if k' = k then none else m k'

/-- The expression `m[k] || []`: an array is always truthy, so the stored
list is kept whenever the key is present. -/
def ListMap.getOrEmpty (m : ListMap) (k : String) : List Obj :=
  match m k with
  | some l => l
  | none => []

/-! ## Users and application state -/

/-- A record of the `users` list, as `register` builds it (line 77). -/
structure User where
  id : String
  username : String
  password : String
  dark : Bool
  name : String
  deriving DecidableEq, Repr

/-- The persisted state of `App` (lines 23-31). -/
structure AppState where
  users : List User
  currentUser : Option User
  classesMap : ListMap
  assignMap : ListMap
  dark : Bool

/-- The state of a first load: the defaults of the five `useLocalStorage`
cells (`DEFAULT_DARK` is `false`). -/
def initialState : AppState :=
  { users := [], currentUser := none, classesMap := ListMap.empty,
    assignMap := ListMap.empty, dark := false }

/-- The id of a session, `currentUser?.id || 'guest'` on a given
`currentUser`: the empty string is falsy, so a user whose id is empty
shares the guest key. -/
def userIdOf (cu : Option User) : String :=
  match cu with
  | some u => if u.id = "" then "guest" else u.id
  | none => "guest"

/-- The constant `userId` (line 50). -/
def userId (st : AppState) : String := userIdOf st.currentUser

/-- The constant `classes` (line 53). -/
def classes (st : AppState) : List Obj := st.classesMap.getOrEmpty (userId st)

/-- The constant `assignments` (line 54). -/
def assignments (st : AppState) : List Obj := st.assignMap.getOrEmpty (userId st)

/-! ## Authentication -/

/-- The messages that the authentication helpers pass to `alert`. The first
three are the rejections. -/
inductive Alert where
  | required
  | usernameExists
  | invalidCredentials
  | registered (username : String)
  | loggedIn (username : String)
  | loggedOut
  deriving DecidableEq, Repr

/-- An alert that reports a rejection. -/
def Alert.isFailure : Alert → Bool
  | Alert.required => true
  | Alert.usernameExists => true
  | Alert.invalidCredentials => true
  | _ => false

/-- The characters that `String.prototype.trim` removes: the WhiteSpace and
LineTerminator code points of ECMAScript. -/
def isJsWhiteSpace (c : Char) : Bool :=
  let n := c.toNat
  n = 0x09 || n = 0x0A || n = 0x0B || n = 0x0C || n = 0x0D || n = 0x20 ||
  n = 0xA0 || n = 0x1680 || (0x2000 ≤ n && n ≤ 0x200A) || n = 0x2028 ||
  n = 0x2029 || n = 0x202F || n = 0x205F || n = 0x3000 || n = 0xFEFF

/-- The method `trim` of a string. -/
def jsTrim (s : String) : String :=
  String.mk ((s.data.dropWhile isJsWhiteSpace).reverse.dropWhile isJsWhiteSpace).reverse

/-- The function `register` (lines 73-84); `newId` is the value of `uid()`.
The result is the alert shown and the state left behind; on the two early
returns no setter is called. -/
def register (st : AppState) (newId username password name : String) :
    Alert × AppState :=
  if username = "" ∨ password = "" then (Alert.required, st)
  else if (st.users.find? (fun u => decide (u.username = username))).isSome then
    (Alert.usernameExists, st)
  else
    let displayName := if jsTrim name = "" then username else jsTrim name
    let user : User :=
      { id := newId, username := username, password := password, dark := false,
        name := displayName }
    (Alert.registered username,
      { st with
        users := st.users ++ [user]
        classesMap := st.classesMap.set user.id []
        assignMap := st.assignMap.set user.id []
        currentUser := some user })

/-- The function `login` (lines 85-91). -/
def login (st : AppState) (username password : String) : Alert × AppState :=
  match st.users.find? (fun u => decide (u.username = username) && decide (u.password = password)) with
  | none => (Alert.invalidCredentials, st)
  | some user =>
    (Alert.loggedIn username, { st with currentUser := some user, dark := user.dark })

/-- The function `logout` (line 92). -/
def logout (st : AppState) : Alert × AppState :=
  (Alert.loggedOut, { st with currentUser := none, dark := false })

/-! ## CRUD on the active partition -/

/-- The entry that `addClass` pushes: `{ id: uid(), ...obj }`. -/
def classEntry (newId : String) (obj : Obj) : Obj :=
  Obj.spread (Obj.lit [("id", Val.str newId)]) obj

/-- The entry that `addAssignment` pushes: `{ id: uid(), completed:false, ...obj }`. -/
def assignmentEntry (newId : String) (obj : Obj) : Obj :=
  Obj.spread (Obj.lit [("id", Val.str newId), ("completed", Val.bool false)]) obj

/-- The updater of `addClass`/`addAssignment` on a map: copy the list of the
key (or start an empty one), push the entry, store the list. -/
def pushEntry (m : ListMap) (k : String) (entry : Obj) : ListMap :=
  m.set k (m.getOrEmpty k ++ [entry])

/-- The updater of `updateClass`/`updateAssignment` on a map:
`(nxt[userId] || []).map(c => c.id===id ? {...c,...updates} : c)`. -/
def patchEntries (m : ListMap) (k : String) (id : Val) (updates : Obj) : ListMap :=
  m.set k ((m.getOrEmpty k).map
    (fun c => if c "id" = some id then Obj.spread c updates else c))

/-- The updater of `deleteClass`/`deleteAssignment` on a map:
`(nxt[userId] || []).filter(c => c.id!==id)`. -/
def removeEntries (m : ListMap) (k : String) (id : Val) : ListMap :=
  m.set k ((m.getOrEmpty k).filter (fun c => decide (c "id" ≠ some id)))

/-- The function `addClass` (lines 163-171); `newId` is the value of `uid()`. -/
def addClass (st : AppState) (newId : String) (obj : Obj) : AppState :=
  { st with classesMap := pushEntry st.classesMap (userId st) (classEntry newId obj) }

/-- The function `updateClass` (lines 172-178). -/
def updateClass (st : AppState) (id : Val) (updates : Obj) : AppState :=
  { st with classesMap := patchEntries st.classesMap (userId st) id updates }

/-- The function `deleteClass` (lines 179-185). -/
def deleteClass (st : AppState) (id : Val) : AppState :=
  { st with classesMap := removeEntries st.classesMap (userId st) id }

/-- The function `addAssignment` (lines 188-196); `newId` is the value of `uid()`. -/
def addAssignment (st : AppState) (newId : String) (obj : Obj) : AppState :=
  { st with assignMap := pushEntry st.assignMap (userId st) (assignmentEntry newId obj) }

/-- The function `updateAssignment` (lines 197-203). -/
def updateAssignment (st : AppState) (id : Val) (updates : Obj) : AppState :=
  { st with assignMap := patchEntries st.assignMap (userId st) id updates }

/-- The function `deleteAssignment` (lines 204-210). -/
def deleteAssignment (st : AppState) (id : Val) : AppState :=
  { st with assignMap := removeEntries st.assignMap (userId st) id }

/-- The click handler of "Clear all data" in Settings (lines 579-586), the
`deleteAll` of the specification. `confirmed` is the answer to the `confirm`
dialog. Both early returns leave every cell alone; otherwise the key
`userId` is deleted from both maps. -/
def deleteAll (st : AppState) (confirmed : Bool) : AppState :=
  if confirmed = false then st
  else match st.currentUser with
    | none => st
    | some _ =>
      { st with
        classesMap := st.classesMap.erase (userId st)
        assignMap := st.assignMap.erase (userId st) }

/-! ## The per-day class view -/

/-- The order test that a comparator `(a,b) => a[field].localeCompare(b[field])`
induces on two entries whose field is a string; `localeCompare` is the
collation of the host. -/
def fieldLe (localeCompare : String → String → Int) (field : String) (a b : Obj) : Bool :=
  match a.strField field, b.strField field with
  | some x, some y => decide (localeCompare x y ≤ 0)
  | _, _ => true

/-- The call `.sort((a,b) => a[field].localeCompare(b[field]))` on a list of
entries. `Array.prototype.sort` is stable; the stable insertion sort is used
here. A list of at most one entry is returned without any call of the
comparator. On a longer list every entry meets the comparator, and an entry
whose field is not a string makes it throw or fall back on a coercion that
depends on the engine: the result is then `none`. -/
def sortByStr (localeCompare : String → String → Int) (field : String)
    (l : List Obj) : Option (List Obj) :=
  if l.length ≤ 1 then some l
  else if l.all (fun o => (o.strField field).isSome) then
    some (l.insertionSort (fun a b => fieldLe localeCompare field a b = true))
  else none

/-- The constant `classesForSelected` (line 225) for a given `selectedDay`. -/
def classesForSelected (localeCompare : String → String → Int) (st : AppState)
    (selectedDay : String) : Option (List Obj) :=
  sortByStr localeCompare "startTime"
    ((classes st).filter (fun c => decide (c "day" = some (Val.str selectedDay))))

/-- The class of the isolation scenario:
`{day:"Monday", startTime:"09:00", endTime:"10:00", subject:"Math"}`. -/
def mathClass : Obj :=
  Obj.lit [("day", Val.str "Monday"), ("startTime", Val.str "09:00"),
    ("endTime", Val.str "10:00"), ("subject", Val.str "Math")]

/-- The record that a successful `register` stores (line 77, with the
`displayName` of line 76). -/
def registeredUser (newId username password name : String) : User :=
  { id := newId, username := username, password := password, dark := false,
    name := if jsTrim name = "" then username else jsTrim name }

/-! ## States used in the examples -/

/-- The user of the examples: an account with id `a1` and username "alice". -/
def userA : User :=
  { id := "a1", username := "alice", password := "pw", dark := false, name := "Alice" }

/-- The state of the examples: "alice" is registered and logged in, with empty lists. -/
def stateA : AppState :=
  { users := [userA], currentUser := some userA,
    classesMap := ListMap.empty.set "a1" [], assignMap := ListMap.empty.set "a1" [],
    dark := false }

/-! ## The other derived views -/

/-- The array `days` of `todayName` (line 220), indexed by `Date.getDay()`. -/
def days : List String :=
  ["Sunday", "Monday", "Tuesday", "Wednesday", "Thursday", "Friday", "Saturday"]

/-- The constant `todayName` (line 220); `getDay` is the value of
`new Date().getDay()`, a number from 0 to 6. -/
def todayName (getDay : Fin 7) : String := days.getD getDay.val ""

/-- The constant `todaysClasses` (line 221). -/
def todaysClasses (localeCompare : String → String → Int) (st : AppState)
    (getDay : Fin 7) : Option (List Obj) :=
  sortByStr localeCompare "startTime"
    ((classes st).filter (fun c => decide (c "day" = some (Val.str (todayName getDay)))))

/-- The truthiness of a property value: `undefined`, `false` and the empty
string are falsy. -/
def truthy (v : Option Val) : Bool :=
  match v with
  | some (Val.bool b) => b
  | some (Val.str s) => decide (s ≠ "")
  | none => false

/-! ## Calendar dates and the two date helpers -/

/-- Leap years of the Gregorian calendar. -/
def isLeapYear (y : Nat) : Bool :=
  (y % 4 = 0 && y % 100 ≠ 0) || y % 400 = 0

/-- The number of days of month `m` (1 to 12) of year `y`; 0 for any other `m`. -/
def daysInMonth (y m : Nat) : Nat :=
  if m = 2 then (if isLeapYear y then 29 else 28)
  else if m = 4 ∨ m = 6 ∨ m = 9 ∨ m = 11 then 30
  else if 1 ≤ m ∧ m ≤ 12 then 31
  else 0

/-- The number of days from 0000-01-01 to January 1st of year `y`. -/
def daysBeforeYear (y : Nat) : Nat :=
  365 * y + (if y = 0 then 0 else (y - 1) / 4 - (y - 1) / 100 + (y - 1) / 400 + 1)

/-- The number of days from January 1st of year `y` to the first of month `m`. -/
def daysBeforeMonth (y m : Nat) : Nat :=
  ((List.range (m - 1)).map (fun i => daysInMonth y (i + 1))).sum

/-- The day number of a calendar date: days since 1970-01-01. The year may
be negative; the calendar repeats every 400 years (146097 days), so the year
is moved up by 1000000 years first. A day past the end of the month counts on
into the next month, as `MakeDay` does. -/
def dayNumber (y : Int) (m d : Nat) : Int :=
  ((daysBeforeYear (y + 1000000).toNat + daysBeforeMonth (y + 1000000).toNat m + (d - 1) : Nat)
    : Int) - 719528 - 2500 * 146097

/-- The value of a decimal digit. -/
def digitVal (c : Char) : Nat := c.toNat - 48

/-- The number that a list of decimal digits writes; `none` when a character
is not a digit. -/
def digitsValue (cs : List Char) : Option Nat :=
  if cs.all Char.isDigit then some (cs.foldl (fun n c => 10 * n + digitVal c) 0) else none

/-- The year of an ISO date string and what follows it: four digits, or a
sign and six digits (`-000000` is not a year). -/
def parseYear (cs : List Char) : Option (Int × List Char) :=
  match cs with
  | '+' :: y1 :: y2 :: y3 :: y4 :: y5 :: y6 :: rest =>
    match digitsValue [y1, y2, y3, y4, y5, y6] with
    | some y => some ((y : Int), rest)
    | none => none
  | '-' :: y1 :: y2 :: y3 :: y4 :: y5 :: y6 :: rest =>
    match digitsValue [y1, y2, y3, y4, y5, y6] with
    | some y => if y = 0 then none else some (-(y : Int), rest)
    | none => none
  | y1 :: y2 :: y3 :: y4 :: rest =>
    match digitsValue [y1, y2, y3, y4] with
    | some y => some ((y : Int), rest)
    | none => none
  | _ => none

/-- The month and day that follow the year of an ISO date string: nothing
(January 1st), `-MM` (the 1st of the month) or `-MM-DD`. -/
def parseMonthDay (cs : List Char) : Option (Nat × Nat) :=
  match cs with
  | [] => some (1, 1)
  | ['-', m1, m2] =>
    match digitsValue [m1, m2] with
    | some m => some (m, 1)
    | none => none
  | ['-', m1, m2, '-', d1, d2] =>
    match digitsValue [m1, m2], digitsValue [d1, d2] with
    | some m, some d => some (m, d)
    | _, _ => none
  | _ => none

/-- The calendar day that V8 (Chrome, Edge, Node) reads from
`iso+'T00:00:00'`, as a day number, when `iso` is a date of the ISO form
`YYYY`, `YYYY-MM` or `YYYY-MM-DD`, the year also as a sign and six digits.
The month must be 01 to 12 and the day 01 to 31; V8 does not compare the day
with the length of the month, so `2024-02-30` is read as 2024-03-01. For
every other string the result is `none`, an Invalid Date; what a host makes
of such strings by other rules is not modelled here, and the statements about
arbitrary strings take the host's reading as a parameter instead. -/
def parseIsoDate (iso : String) : Option Int :=
  match parseYear iso.data with
  | none => none
  | some (y, rest) =>
    match parseMonthDay rest with
    | none => none
    | some (m, d) =>
      if 1 ≤ m ∧ m ≤ 12 ∧ 1 ≤ d ∧ d ≤ 31 then some (dayNumber y m d) else none

/-- The operation `TimeClip`: a time value beyond 8.64e15 milliseconds from
the epoch is `NaN`. -/
def timeClip (t : Int) : Option Int :=
  if -8640000000000000 ≤ t ∧ t ≤ 8640000000000000 then some t else none

/-- The time value of `new Date(iso+'T00:00:00')` on a V8 host whose time
zone is `localMidnight`: the local midnight of the day that `parseIsoDate`
reads, or `none` for an Invalid Date. -/
def isoDateValue (localMidnight : Int → Int) (iso : String) : Option Int :=
  match parseIsoDate iso with
  | none => none
  | some d => timeClip (localMidnight d)

/-- The value of `new Date()`: the local calendar date, as a day number, and
the time of day in milliseconds. -/
structure Now where
  date : Int
  msOfDay : Nat

/-- The constant `1000*60*60*24` of `inNextNDays`. -/
def msPerDay : Int := 1000 * 60 * 60 * 24

/-- The function `isOverdue` (line 216). The host supplies `dateValue`, the
time value in milliseconds of `new Date(iso+'T00:00:00')` (`none` for an
Invalid Date, whose time value is `NaN`), and `localMidnight`, its time zone:
the time value of 00:00:00 local time on a given day.
`today.setHours(0,0,0,0)` is the local midnight of the date of `now`; a
comparison with `NaN` is false. -/
def isOverdue (dateValue : String → Option Int) (localMidnight : Int → Int) (now : Now)
    (iso : String) : Bool :=
  if iso = "" then false
  else match dateValue iso with
    | none => false
    | some t => decide (t < localMidnight now.date)

/-- The function `inNextNDays` (line 217), with the same `dateValue` and
`localMidnight`. The quotient `diff` is a difference of whole milliseconds
divided by `msPerDay`, so `diff>=0 && diff<=n` is a comparison of integers. -/
def inNextNDays (dateValue : String → Option Int) (localMidnight : Int → Int) (now : Now)
    (iso : String) (n : Int) : Bool :=
  if iso = "" then false
  else match dateValue iso with
    | none => false
    | some t =>
      decide (0 ≤ t - localMidnight now.date) &&
      decide (t - localMidnight now.date ≤ n * msPerDay)

/-- The argument `a.dueDate` of the two date helpers. A value that is not a
string is falsy or gives an Invalid Date, so both helpers answer `false` for
it, as they do for the empty string. -/
def dueDateOf (a : Obj) : String := (a.strField "dueDate").getD ""

/-- The constant `dueSoon` (line 222). -/
def dueSoon (localeCompare : String → String → Int) (dateValue : String → Option Int)
    (localMidnight : Int → Int) (now : Now) (st : AppState) : Option (List Obj) :=
  sortByStr localeCompare "dueDate"
    ((assignments st).filter
      (fun a => inNextNDays dateValue localMidnight now (dueDateOf a) 7))

/-- The constant `assignmentsFiltered` (line 228) for a given `assignFilter`. -/
def assignmentsFiltered (localeCompare : String → String → Int) (st : AppState)
    (assignFilter : String) : Option (List Obj) :=
  (sortByStr localeCompare "dueDate" (assignments st)).map
    (fun sorted => sorted.filter (fun a =>
      if assignFilter = "all" then true
      else if assignFilter = "pending" then !truthy (a "completed")
      else truthy (a "completed")))

/-- The condition of the red due date (lines 458 and 552):
`isOverdue(a.dueDate) && !a.completed`. -/
def overdueStyle (dateValue : String → Option Int) (localMidnight : Int → Int) (now : Now)
    (a : Obj) : Bool :=
  isOverdue dateValue localMidnight now (dueDateOf a) && !truthy (a "completed")

/-- A host whose local midnights are a fixed offset from UTC: every local day
has `msPerDay` milliseconds. -/
def fixedOffsetMidnight (offset : Int) (d : Int) : Int := d * msPerDay + offset

/-- The `dateValue` of a host that reads a calendar day from the string
(`readDate`, `none` for an Invalid Date) and takes its local midnight. -/
def midnightOf (readDate : String → Option Int) (localMidnight : Int → Int)
    (iso : String) : Option Int :=
  (readDate iso).map localMidnight

/-- A host in UTC: every local day has `msPerDay` milliseconds. -/
def utcMidnight (d : Int) : Int := d * msPerDay

/-- A host in America/New_York, for the dates of 2024: the local midnights
from 11 March to 3 November (days 19793 to 20030) are four hours behind UTC,
the others five. -/
def newYorkMidnight (d : Int) : Int :=
  d * msPerDay + (if 19793 ≤ d ∧ d ≤ 20030 then 4 else 5) * (1000 * 60 * 60)

/-- The comparison of two character lists by code point, position by
position: negative, zero or positive. -/
def compareChars : List Char → List Char → Int
  | [], [] => 0
  | [], _ :: _ => -1
  | _ :: _, [] => 1
  | a :: as, b :: bs =>
    if a < b then -1 else if b < a then 1 else compareChars as bs

/-- A collation that orders strings by code point. The host's
`localeCompare` gives the same order on strings of one fixed format made of
digits and separators, such as `HH:MM` and `YYYY-MM-DD`. -/
def codePointCompare (a b : String) : Int := compareChars a.data b.data

/-- A class entry as the class form submits it (line 265), without teacher and room. -/
def classForm (day startTime endTime subject : String) : Obj :=
  Obj.lit [("day", Val.str day), ("startTime", Val.str startTime),
    ("endTime", Val.str endTime), ("subject", Val.str subject)]

/-- The schedule of the examples: "alice" has added Physics on Monday at
11:00, then Math on Monday at 09:00, then Art on Tuesday at 08:00. -/
def weekState : AppState :=
  addClass (addClass (addClass stateA "c1" (classForm "Monday" "11:00" "12:00" "Physics"))
    "c2" mathClass) "c3" (classForm "Tuesday" "08:00" "09:00" "Art")

/-- An assignment as the assignment form submits it (line 507). -/
def assignmentForm (title subject dueDate description : String) : Obj :=
  Obj.lit [("title", Val.str title), ("subject", Val.str subject),
    ("dueDate", Val.str dueDate), ("description", Val.str description)]

/-- The state of the autumn example: "alice" has one assignment, due on
2024-11-04. -/
def autumnState : AppState :=
  addAssignment stateA "h1" (assignmentForm "Essay" "History" "2024-11-04" "")

/-- The entry of the overdue example: an assignment due on 2024-06-09, as
`addAssignment` stores it (`completed:false`). -/
def essayEntry : Obj :=
  assignmentEntry "h1" (assignmentForm "Essay" "History" "2024-06-09" "")

/-- The same entry after `markAssignment(id, true)` (line 212). -/
def essayDone : Obj := Obj.spread essayEntry (Obj.lit [("completed", Val.bool true)])

/-- The state of the overdue example: "alice" has added the assignment due on
2024-06-09 and has ticked it as completed. -/
def doneState : AppState :=
  updateAssignment (addAssignment stateA "h1" (assignmentForm "Essay" "History" "2024-06-09" ""))
    (Val.str "h1") (Obj.lit [("completed", Val.bool true)])

/-- The assignment list of the examples: "alice" has added a report due on
2024-06-20, an essay due on 2024-06-12 and a quiz due on 2024-06-15, and has
ticked the essay as completed. -/
def homeworkState : AppState :=
  updateAssignment
    (addAssignment
      (addAssignment
        (addAssignment stateA "h1" (assignmentForm "Report" "Physics" "2024-06-20" ""))
        "h2" (assignmentForm "Essay" "History" "2024-06-12" ""))
      "h3" (assignmentForm "Quiz" "Math" "2024-06-15" ""))
    (Val.str "h2") (Obj.lit [("completed", Val.bool true)])

/-- The planner of the examples: the schedule of `weekState` together with
the assignments of `homeworkState`. -/
def plannerState : AppState := { weekState with assignMap := homeworkState.assignMap }

/-! ## The theme effects and sequences of operations -/

/-- The call `setDark(value)` of the two theme buttons (lines 382 and 575). -/
def setDark (st : AppState) (value : Bool) : AppState := { st with dark := value }

/-- The effect of lines 59-62: when a user is logged in, the theme becomes
that user's stored preference. -/
def adoptDark (st : AppState) : AppState :=
  match st.currentUser with
  | none => st
  | some cu => { st with dark := cu.dark }

/-- The effect of lines 65-70, the update of the dark preference: nothing
without a session; otherwise every user whose id is the session's gets the
current theme, and so does the session record. -/
def persistDark (st : AppState) : AppState :=
  match st.currentUser with
  | none => st
  | some cu =>
    { st with
      users := st.users.map (fun u => if u.id = cu.id then { u with dark := st.dark } else u)
      currentUser := some { cu with dark := st.dark } }

/-- The operations on the user directory and the session: the three
authentication helpers, the theme buttons and the two theme effects. The
effects are taken as steps of their own, so that a sequence of operations
covers every order in which they can run. -/
inductive Op where
  | register (newId username password name : String)
  | login (username password : String)
  | logout
  | setDark (value : Bool)
  | adoptDark
  | persistDark

/-- The state after one operation. -/
def step (st : AppState) : Op → AppState
  | Op.register newId username password name => (register st newId username password name).2
  | Op.login username password => (login st username password).2
  | Op.logout => (logout st).2
  | Op.setDark value => setDark st value
  | Op.adoptDark => adoptDark st
  | Op.persistDark => persistDark st

/-- The state after a sequence of operations, first to last. -/
def run (st : AppState) (ops : List Op) : AppState := ops.foldl step st

/-- What identifies a stored user: every field but the dark preference. -/
def User.identity (u : User) : String × String × String × String :=
  (u.id, u.username, u.password, u.name)

/-! ## Lemmas on maps and on the active id -/

theorem ListMap.set_same (m : ListMap) (k : String) (l : List Obj) :
    m.set k l k = some l := by
  simp [ListMap.set]

theorem ListMap.set_other (m : ListMap) (k k' : String) (l : List Obj) (h : k' ≠ k) :
    m.set k l k' = m k' := by
  simp [ListMap.set, h]

theorem ListMap.erase_same (m : ListMap) (k : String) : m.erase k k = none := by
  simp [ListMap.erase]

theorem ListMap.erase_other (m : ListMap) (k k' : String) (h : k' ≠ k) :
    m.erase k k' = m k' := by
  simp [ListMap.erase, h]

theorem ListMap.getOrEmpty_set_same (m : ListMap) (k : String) (l : List Obj) :
    (m.set k l).getOrEmpty k = l := by
  simp [ListMap.getOrEmpty, ListMap.set]

theorem ListMap.set_of_eq_some (m : ListMap) (k : String) (l : List Obj)
    (h : m k = some l) : m.set k l = m := by
  funext k'
  by_cases hk : k' = k
  · subst hk; simp [ListMap.set, h]
  · simp [ListMap.set, hk]

theorem register_fst (st : AppState) (newId username password name : String) :
    (register st newId username password name).1 =
      if username = "" ∨ password = "" then Alert.required
      else if (st.users.find? (fun u => decide (u.username = username))).isSome then
        Alert.usernameExists
      else Alert.registered username := by
  unfold register
  split
  · rfl
  · split <;> rfl

theorem find_username_isSome (users : List User) (username : String) :
    (users.find? (fun u => decide (u.username = username))).isSome = true ↔
      ∃ u ∈ users, u.username = username := by
  simp [List.find?_isSome]

theorem register_success_state (st : AppState) (newId username password name : String)
    (h : (register st newId username password name).1 = Alert.registered username) :
    (register st newId username password name).2 =
      { st with
        users := st.users ++ [registeredUser newId username password name]
        classesMap := st.classesMap.set newId []
        assignMap := st.assignMap.set newId []
        currentUser := some (registeredUser newId username password name) } := by
  unfold register at h ⊢
  split
  · rename_i h1; simp [h1] at h
  · split
    · rename_i h1 h2; simp [h1, h2] at h
    · rfl

theorem userIdOf_some_of_ne (u : User) (h : u.id ≠ "") : userIdOf (some u) = u.id := by
  simp [userIdOf, h]

/-! ## C1: partition isolation -/

/-- C1 (partition isolation). For every state and every id `B` other than the
active id, none of `addClass`, `updateClass`, `deleteClass`, `addAssignment`,
`updateAssignment`, `deleteAssignment` and the clear-all handler changes what
`classesMap` and `assignMap` store under `B`. Consequently: when user B has
just registered (with a non-empty generated id), and a session whose active id
differs from B's adds the Monday class "Math" 09:00-10:00, the Monday view
computed in B's session is the empty list. -/
theorem partition_isolation (st : AppState) (B : String) (hB : B ≠ userId st)
    (newId : String) (obj updates : Obj) (id : Val) (confirmed : Bool) :
    ((addClass st newId obj).classesMap B = st.classesMap B ∧
      (addClass st newId obj).assignMap B = st.assignMap B) ∧
    ((updateClass st id updates).classesMap B = st.classesMap B ∧
      (updateClass st id updates).assignMap B = st.assignMap B) ∧
    ((deleteClass st id).classesMap B = st.classesMap B ∧
      (deleteClass st id).assignMap B = st.assignMap B) ∧
    ((addAssignment st newId obj).classesMap B = st.classesMap B ∧
      (addAssignment st newId obj).assignMap B = st.assignMap B) ∧
    ((updateAssignment st id updates).classesMap B = st.classesMap B ∧
      (updateAssignment st id updates).assignMap B = st.assignMap B) ∧
    ((deleteAssignment st id).classesMap B = st.classesMap B ∧
      (deleteAssignment st id).assignMap B = st.assignMap B) ∧
    ((deleteAll st confirmed).classesMap B = st.classesMap B ∧
      (deleteAll st confirmed).assignMap B = st.assignMap B) ∧
    (∀ (localeCompare : String → String → Int) (idB nameB passB displayB : String)
        (A : Option User) (classId : String),
      (register st idB nameB passB displayB).1 = Alert.registered nameB →
      idB ≠ "" → userIdOf A ≠ idB →
      classesForSelected localeCompare
        { addClass { (register st idB nameB passB displayB).2 with currentUser := A }
            classId mathClass with
          currentUser := (register st idB nameB passB displayB).2.currentUser }
        "Monday" = some []) := by
  refine ⟨⟨?_, rfl⟩, ⟨?_, rfl⟩, ⟨?_, rfl⟩, ⟨rfl, ?_⟩, ⟨rfl, ?_⟩, ⟨rfl, ?_⟩, ?_, ?_⟩
  · exact ListMap.set_other _ _ _ _ hB
  · exact ListMap.set_other _ _ _ _ hB
  · exact ListMap.set_other _ _ _ _ hB
  · exact ListMap.set_other _ _ _ _ hB
  · exact ListMap.set_other _ _ _ _ hB
  · exact ListMap.set_other _ _ _ _ hB
  · unfold deleteAll
    split
    · exact ⟨rfl, rfl⟩
    · split
      · exact ⟨rfl, rfl⟩
      · exact ⟨ListMap.erase_other _ _ _ hB, ListMap.erase_other _ _ _ hB⟩
  · intro localeCompare idB nameB passB displayB A classId hreg hne hA
    rw [register_success_state st idB nameB passB displayB hreg]
    have hkey : (idB : String) ≠ userIdOf A := fun h => hA h.symm
    have hidB : userIdOf (some (registeredUser idB nameB passB displayB)) = idB :=
      userIdOf_some_of_ne _ hne
    simp only [classesForSelected, classes, userId, addClass, pushEntry, hidB]
    rw [ListMap.getOrEmpty, ListMap.set_other _ _ _ _ hkey, ListMap.set_same]
    simp [sortByStr]

/-- C1 at a concrete input: A (id `a1`) is active and B's key is `b1`; B then
registers with id `b1`, A adds the Monday class, and B's Monday view is empty. -/
theorem partition_isolation_witness :
    "b1" ≠ userId stateA ∧
    (addClass stateA "c1" mathClass).classesMap "b1" = stateA.classesMap "b1" ∧
    classesForSelected (fun _ _ => 0)
      { addClass { (register stateA "b1" "bob" "pw" "Bob").2 with currentUser := some userA }
          "c1" mathClass with
        currentUser := (register stateA "b1" "bob" "pw" "Bob").2.currentUser }
      "Monday" = some [] :=
  ⟨by decide,
    (partition_isolation stateA "b1" (by decide) "c1" mathClass Obj.empty (Val.str "c1") true).1.1,
    (partition_isolation stateA "b1" (by decide) "c1" mathClass Obj.empty
      (Val.str "c1") true).2.2.2.2.2.2.2 (fun _ _ => 0) "b1" "bob" "pw" "Bob" (some userA) "c1"
      (by decide) (by decide) (by decide)⟩

/-! ## C2, C3, C4: registration -/

/-- C2. When a stored user already has exactly the given username, `register`
is rejected and leaves the whole state as it was: the user list, the session,
`classesMap` and `assignMap` (and the theme). -/
theorem register_duplicate_rejected (st : AppState) (newId username password name : String)
    (hdup : ∃ u ∈ st.users, u.username = username) :
    (register st newId username password name).1.isFailure = true ∧
    (register st newId username password name).2 = st ∧
    (register st newId username password name).2.users = st.users := by
  have hfind := (find_username_isSome st.users username).mpr hdup
  unfold register
  by_cases hempty : username = "" ∨ password = ""
  · rw [if_pos hempty]
    exact ⟨rfl, rfl, rfl⟩
  · rw [if_neg hempty, if_pos hfind]
    exact ⟨rfl, rfl, rfl⟩

/-- C2 at a concrete input: "alice" is stored and registers again. -/
theorem register_duplicate_rejected_witness :
    (∃ u ∈ stateA.users, u.username = "alice") ∧
    (register stateA "z9" "alice" "other" "Al").1.isFailure = true ∧
    (register stateA "z9" "alice" "other" "Al").2 = stateA ∧
    (register stateA "z9" "alice" "other" "Al").2.users = stateA.users :=
  ⟨⟨userA, by decide, by decide⟩,
    register_duplicate_rejected stateA "z9" "alice" "other" "Al" ⟨userA, by decide, by decide⟩⟩

/-- C3. The function `register` is rejected exactly when the username is empty, or
the password is empty, or a stored user has the same username (equality of
strings, so case-sensitive). The empty-field test comes first: the alert is
the validation one exactly when a field is empty, whether or not the username
is also taken; it is the duplicate one exactly when both fields are non-empty
and the username is taken; in every other case `register` succeeds. -/
theorem register_rejected_iff (st : AppState) (newId username password name : String) :
    ((register st newId username password name).1.isFailure = true ↔
      (username = "" ∨ password = "" ∨ ∃ u ∈ st.users, u.username = username)) ∧
    ((register st newId username password name).1 = Alert.required ↔
      (username = "" ∨ password = "")) ∧
    ((register st newId username password name).1 = Alert.usernameExists ↔
      ((username ≠ "" ∧ password ≠ "") ∧ ∃ u ∈ st.users, u.username = username)) ∧
    ((register st newId username password name).1 = Alert.registered username ↔
      ¬ (username = "" ∨ password = "" ∨ ∃ u ∈ st.users, u.username = username)) := by
  rw [register_fst]
  by_cases hempty : username = "" ∨ password = ""
  · rw [if_pos hempty]
    have h3 : username = "" ∨ password = "" ∨ ∃ u ∈ st.users, u.username = username := by
      rcases hempty with h | h
      · exact Or.inl h
      · exact Or.inr (Or.inl h)
    have hnot : ¬ (username ≠ "" ∧ password ≠ "") := by
      rintro ⟨h1, h2⟩
      rcases hempty with h | h
      · exact h1 h
      · exact h2 h
    refine ⟨⟨fun _ => h3, fun _ => rfl⟩, ⟨fun _ => hempty, fun _ => rfl⟩, ⟨?_, ?_⟩, ⟨?_, ?_⟩⟩
    · intro h; cases h
    · intro h; exact absurd h.1 hnot
    · intro h; cases h
    · intro h; exact absurd h3 h
  · rw [if_neg hempty]
    have hne : username ≠ "" ∧ password ≠ "" :=
      ⟨fun h => hempty (Or.inl h), fun h => hempty (Or.inr h)⟩
    by_cases hdup : ∃ u ∈ st.users, u.username = username
    · rw [if_pos ((find_username_isSome st.users username).mpr hdup)]
      refine ⟨⟨fun _ => Or.inr (Or.inr hdup), fun _ => rfl⟩, ⟨?_, ?_⟩,
        ⟨fun _ => ⟨hne, hdup⟩, fun _ => rfl⟩, ⟨?_, ?_⟩⟩
      · intro h; cases h
      · intro h; exact absurd h hempty
      · intro h; cases h
      · intro h; exact absurd (Or.inr (Or.inr hdup)) h
    · have hfind : ¬ (st.users.find? (fun u => decide (u.username = username))).isSome = true :=
        fun h => hdup ((find_username_isSome st.users username).mp h)
      rw [if_neg hfind]
      have hnone : ¬ (username = "" ∨ password = "" ∨ ∃ u ∈ st.users, u.username = username) := by
        rintro (h | h | h)
        · exact hne.1 h
        · exact hne.2 h
        · exact hdup h
      refine ⟨⟨?_, ?_⟩, ⟨?_, ?_⟩, ⟨?_, ?_⟩, ⟨fun _ => hnone, fun _ => rfl⟩⟩
      · intro h; cases h
      · intro h; exact absurd h hnone
      · intro h; cases h
      · intro h; exact absurd h hempty
      · intro h; cases h
      · intro h; exact absurd h.2 hdup

/-- C4, the claim refuted: two registrations with distinct usernames both
succeed and store two users with the same id when `uid()` returns the same
string twice. -/
theorem register_same_id_twice :
    (register initialState "k3x" "alice" "pw" "").1 = Alert.registered "alice" ∧
    (register (register initialState "k3x" "alice" "pw" "").2 "k3x" "bob" "pw" "").1 =
      Alert.registered "bob" ∧
    "alice" ≠ "bob" ∧
    ¬ ((register (register initialState "k3x" "alice" "pw" "").2
        "k3x" "bob" "pw" "").2.users.map User.id).Nodup := by
  decide

/-- C4, amended. After a successful `register` with generated id `newId`: the
user list is the old list followed by one user, whose id is `newId`, whose
username and password are the arguments, whose display name is the trimmed
name or (when that is empty) the username, and whose dark preference is
false; `classesMap` and `assignMap` hold the empty list under `newId`; the
session is that user. The ids of the stored users are pairwise distinct after
the registration exactly when they were before and `newId` is the id of no
stored user. -/
theorem register_success (st : AppState) (newId username password name : String)
    (hok : (register st newId username password name).1 = Alert.registered username) :
    ∃ u : User,
      u.id = newId ∧ u.username = username ∧ u.password = password ∧
      u.name = (if jsTrim name = "" then username else jsTrim name) ∧ u.dark = false ∧
      (register st newId username password name).2.users = st.users ++ [u] ∧
      (register st newId username password name).2.classesMap newId = some [] ∧
      (register st newId username password name).2.assignMap newId = some [] ∧
      (register st newId username password name).2.currentUser = some u ∧
      (((register st newId username password name).2.users.map User.id).Nodup ↔
        ((st.users.map User.id).Nodup ∧ ∀ v ∈ st.users, v.id ≠ newId)) := by
  refine ⟨registeredUser newId username password name, rfl, rfl, rfl, rfl, rfl, ?_⟩
  rw [register_success_state st newId username password name hok]
  refine ⟨rfl, ListMap.set_same _ _ _, ListMap.set_same _ _ _, rfl, ?_⟩
  simp only [List.map_append, List.map_cons, List.map_nil]
  rw [List.nodup_append]
  simp only [List.nodup_cons, List.not_mem_nil, not_false_eq_true, List.nodup_nil, and_self,
    true_and, List.disjoint_singleton, List.mem_map, not_exists, not_and]
  rfl

/-- C4 (amended) at a concrete input: "bob" registers on a state that holds "alice". -/
theorem register_success_witness :
    (register stateA "b1" "bob" "pw" "  ").1 = Alert.registered "bob" ∧
    ∃ u : User,
      u.id = "b1" ∧ u.username = "bob" ∧ u.password = "pw" ∧
      u.name = (if jsTrim "  " = "" then "bob" else jsTrim "  ") ∧ u.dark = false ∧
      (register stateA "b1" "bob" "pw" "  ").2.users = stateA.users ++ [u] ∧
      (register stateA "b1" "bob" "pw" "  ").2.classesMap "b1" = some [] ∧
      (register stateA "b1" "bob" "pw" "  ").2.assignMap "b1" = some [] ∧
      (register stateA "b1" "bob" "pw" "  ").2.currentUser = some u ∧
      (((register stateA "b1" "bob" "pw" "  ").2.users.map User.id).Nodup ↔
        ((stateA.users.map User.id).Nodup ∧ ∀ v ∈ stateA.users, v.id ≠ "b1")) :=
  ⟨by decide, register_success stateA "b1" "bob" "pw" "  " (by decide)⟩

/-! ## C5: login -/

/-- C5. The function `login` is rejected exactly when no stored user has both the given
username and the given password; a rejected login leaves the whole state
(session and theme included) as it was; an accepted login makes the session a
stored user with that username and password and makes the theme that user's
stored dark preference; in both cases the user list, `classesMap` and
`assignMap` are unchanged. -/
theorem login_spec (st : AppState) (username password : String) :
    ((login st username password).1 = Alert.invalidCredentials ↔
      ¬ ∃ u ∈ st.users, u.username = username ∧ u.password = password) ∧
    ((login st username password).1.isFailure = true ↔
      (login st username password).1 = Alert.invalidCredentials) ∧
    ((login st username password).1 = Alert.invalidCredentials →
      (login st username password).2 = st) ∧
    ((login st username password).1 ≠ Alert.invalidCredentials →
      (login st username password).1 = Alert.loggedIn username ∧
      ∃ u ∈ st.users, u.username = username ∧ u.password = password ∧
        (login st username password).2.currentUser = some u ∧
        (login st username password).2.dark = u.dark) ∧
    (login st username password).2.users = st.users ∧
    (login st username password).2.classesMap = st.classesMap ∧
    (login st username password).2.assignMap = st.assignMap := by
  unfold login
  cases hfind : st.users.find?
      (fun u => decide (u.username = username) && decide (u.password = password)) with
  | none =>
    have hnone : ¬ ∃ u ∈ st.users, u.username = username ∧ u.password = password := by
      rintro ⟨u, hu, h1, h2⟩
      have := List.find?_eq_none.mp hfind u hu
      simp [h1, h2] at this
    exact ⟨⟨fun _ => hnone, fun _ => rfl⟩, ⟨fun _ => rfl, fun _ => rfl⟩, fun _ => rfl,
      fun h => absurd rfl h, rfl, rfl, rfl⟩
  | some user =>
    have hmem : user ∈ st.users := List.mem_of_find?_eq_some hfind
    have hprop := List.find?_some hfind
    simp only [Bool.and_eq_true, decide_eq_true_eq] at hprop
    refine ⟨⟨?_, ?_⟩, ⟨?_, ?_⟩, ?_, ?_, rfl, rfl, rfl⟩
    · intro h; cases h
    · intro h; exact absurd ⟨user, hmem, hprop.1, hprop.2⟩ h
    · intro h; cases h
    · intro h; cases h
    · intro h; cases h
    · intro _
      exact ⟨rfl, user, hmem, hprop.1, hprop.2, rfl, rfl⟩

/-! ## C6: add followed by update -/

theorem patch_no_match (l : List Obj) (id : Val) (updates : Obj)
    (h : ∀ e ∈ l, e "id" ≠ some id) :
    l.map (fun c => if c "id" = some id then Obj.spread c updates else c) = l := by
  induction l with
  | nil => rfl
  | cons a t ih =>
    have ha : a "id" ≠ some id := h a (List.mem_cons_self a t)
    have ht : ∀ e ∈ t, e "id" ≠ some id := fun e he => h e (List.mem_cons_of_mem a he)
    simp only [List.map_cons, if_neg ha, ih ht]

theorem filter_no_match (l : List Obj) (id : Val) (h : ∀ e ∈ l, e "id" ≠ some id) :
    l.filter (fun c => decide (c "id" ≠ some id)) = l := by
  apply List.filter_eq_self.mpr
  intro e he
  exact decide_eq_true (h e he)

theorem push_then_patch (m : ListMap) (k : String) (entry updates : Obj) (i : Val)
    (hid : entry "id" = some i) (hfresh : ∀ e ∈ m.getOrEmpty k, e "id" ≠ some i) :
    (patchEntries (pushEntry m k entry) k i updates).getOrEmpty k =
      m.getOrEmpty k ++ [Obj.spread entry updates] := by
  unfold patchEntries pushEntry
  rw [ListMap.getOrEmpty_set_same, ListMap.getOrEmpty_set_same, List.map_append,
    patch_no_match _ _ _ hfresh]
  simp [hid]

/-- C6, the claim refuted. The guest list holds one class with id `c1` and
subject "Old"; `addClass({})` draws the id `c1` again and
`updateClass("c1", {id:"c2", subject:"New"})` follows. The entry that was
there before the add is changed too (its subject is now "New"), and no entry
of the list carries the id `c1` any more. -/
theorem add_update_touches_other_entry :
    (classes (addClass initialState "c1" (Obj.lit [("subject", Val.str "Old")]))).map
        (fun e => (e "id", e "subject")) =
      [(some (Val.str "c1"), some (Val.str "Old"))] ∧
    classEntry "c1" Obj.empty "id" = some (Val.str "c1") ∧
    (classes (updateClass
        (addClass (addClass initialState "c1" (Obj.lit [("subject", Val.str "Old")]))
          "c1" Obj.empty)
        (Val.str "c1") (Obj.lit [("id", Val.str "c2"), ("subject", Val.str "New")]))).map
        (fun e => (e "id", e "subject")) =
      [(some (Val.str "c2"), some (Val.str "New")), (some (Val.str "c2"), some (Val.str "New"))] := by
  decide

/-- C6, amended. Let `i` be the id of the entry that `add(p)` creates, and
suppose no entry already in the active user's list carries `i`. After
`add(p)` and then `update(i, q)` the active user's list is the previous list,
every entry unchanged, followed by one entry: the add-time entry with `q`
spread over it, which has the value from `q` for every field that `q` names
(its id too, when `q` names `id`) and the add-time value for every other
field. This holds for classes and for assignments. -/
theorem add_then_update (st : AppState) (newId : String) (p q : Obj) (i : Val)
    (hid : classEntry newId p "id" = some i)
    (hfreshC : ∀ e ∈ classes st, e "id" ≠ some i)
    (hfreshA : ∀ e ∈ assignments st, e "id" ≠ some i) :
    assignmentEntry newId p "id" = some i ∧
    classes (updateClass (addClass st newId p) i q) =
      classes st ++ [Obj.spread (classEntry newId p) q] ∧
    assignments (updateAssignment (addAssignment st newId p) i q) =
      assignments st ++ [Obj.spread (assignmentEntry newId p) q] ∧
    (∀ k v, q k = some v →
      Obj.spread (classEntry newId p) q k = some v ∧
      Obj.spread (assignmentEntry newId p) q k = some v) ∧
    (∀ k, q k = none →
      Obj.spread (classEntry newId p) q k = classEntry newId p k ∧
      Obj.spread (assignmentEntry newId p) q k = assignmentEntry newId p k) := by
  have hidA : assignmentEntry newId p "id" = some i := by
    rw [← hid]
    simp [assignmentEntry, classEntry, Obj.spread, Obj.lit, Obj.set, Obj.empty]
  refine ⟨hidA, ?_, ?_, ?_, ?_⟩
  · exact push_then_patch st.classesMap (userId st) _ q i hid hfreshC
  · exact push_then_patch st.assignMap (userId st) _ q i hidA hfreshA
  · intro k v hk
    simp [Obj.spread, hk]
  · intro k hk
    simp [Obj.spread, hk]

/-- C6 (amended) at a concrete input: the guest list holds one class with id
`c1`; a class is added with the fresh id `c2` and its subject is patched. -/
theorem add_then_update_witness :
    classEntry "c2" mathClass "id" = some (Val.str "c2") ∧
    classes (updateClass (addClass (addClass initialState "c1" mathClass) "c2" mathClass)
        (Val.str "c2") (Obj.lit [("subject", Val.str "Physics")])) =
      classes (addClass initialState "c1" mathClass) ++
        [Obj.spread (classEntry "c2" mathClass) (Obj.lit [("subject", Val.str "Physics")])] ∧
    Obj.spread (classEntry "c2" mathClass) (Obj.lit [("subject", Val.str "Physics")]) "subject" =
      some (Val.str "Physics") ∧
    Obj.spread (classEntry "c2" mathClass) (Obj.lit [("subject", Val.str "Physics")]) "day" =
      some (Val.str "Monday") :=
  ⟨by decide,
    (add_then_update (addClass initialState "c1" mathClass) "c2" mathClass
      (Obj.lit [("subject", Val.str "Physics")]) (Val.str "c2") (by decide) (by decide)
      (by decide)).2.1,
    by decide, by decide⟩

/-! ## C7, C8: delete and update on ids that are not there -/

theorem removeEntries_twice (m : ListMap) (k : String) (id : Val) :
    removeEntries (removeEntries m k id) k id = removeEntries m k id := by
  funext k'
  unfold removeEntries
  rw [ListMap.getOrEmpty_set_same]
  by_cases hk : k' = k
  · simp [ListMap.set, hk, List.filter_filter]
  · simp [ListMap.set, hk]

/-- C7. Delete is idempotent: for every state (the key of the active user may
be absent from the map) and every id, `deleteClass(id)` applied twice leaves
the same state, hence the same `classesMap`, as applied once; likewise
`deleteAssignment(id)` and `assignMap`. -/
theorem delete_idempotent (st : AppState) (id : Val) :
    deleteClass (deleteClass st id) id = deleteClass st id ∧
    (deleteClass (deleteClass st id) id).classesMap = (deleteClass st id).classesMap ∧
    deleteAssignment (deleteAssignment st id) id = deleteAssignment st id ∧
    (deleteAssignment (deleteAssignment st id) id).assignMap =
      (deleteAssignment st id).assignMap := by
  have hC : deleteClass (deleteClass st id) id = deleteClass st id := by
    simp only [deleteClass, userId]
    rw [removeEntries_twice]
  have hA : deleteAssignment (deleteAssignment st id) id = deleteAssignment st id := by
    simp only [deleteAssignment, userId]
    rw [removeEntries_twice]
  exact ⟨hC, by rw [hC], hA, by rw [hA]⟩

theorem patchEntries_no_match (m : ListMap) (k : String) (id : Val) (updates : Obj)
    (h : ∀ e ∈ m.getOrEmpty k, e "id" ≠ some id) :
    patchEntries m k id updates = m.set k (m.getOrEmpty k) := by
  unfold patchEntries
  rw [patch_no_match _ _ _ h]

theorem removeEntries_no_match (m : ListMap) (k : String) (id : Val)
    (h : ∀ e ∈ m.getOrEmpty k, e "id" ≠ some id) :
    removeEntries m k id = m.set k (m.getOrEmpty k) := by
  unfold removeEntries
  rw [filter_no_match _ _ h]

theorem ListMap.set_getOrEmpty_of_isSome (m : ListMap) (k : String)
    (h : (m k).isSome = true) : m.set k (m.getOrEmpty k) = m := by
  cases hk : m k with
  | none => simp [hk] at h
  | some l =>
    have : m.getOrEmpty k = l := by simp [ListMap.getOrEmpty, hk]
    rw [this]
    exact ListMap.set_of_eq_some m k l hk

theorem ListMap.getOrEmpty_of_eq_none (m : ListMap) (k : String) (h : m k = none) :
    m.getOrEmpty k = [] := by
  simp [ListMap.getOrEmpty, h]

/-- C8, the claim refuted. User `a1` is logged in and has cleared all data, so
`a1` is not a key of either map and no entry carries the id `x`. Then
`deleteClass("x")`, `updateClass("x", {})`, `deleteAssignment("x")` and
`updateAssignment("x", {})` each make `a1` a key again. -/
theorem missing_id_recreates_key :
    (∀ e ∈ classes (deleteAll stateA true), e "id" ≠ some (Val.str "x")) ∧
    (∀ e ∈ assignments (deleteAll stateA true), e "id" ≠ some (Val.str "x")) ∧
    userId (deleteAll stateA true) = "a1" ∧
    ((deleteAll stateA true).classesMap "a1").isSome = false ∧
    ((deleteAll stateA true).assignMap "a1").isSome = false ∧
    ((deleteClass (deleteAll stateA true) (Val.str "x")).classesMap "a1").isSome = true ∧
    ((updateClass (deleteAll stateA true) (Val.str "x") Obj.empty).classesMap "a1").isSome = true ∧
    ((deleteAssignment (deleteAll stateA true) (Val.str "x")).assignMap "a1").isSome = true ∧
    ((updateAssignment (deleteAll stateA true) (Val.str "x") Obj.empty).assignMap "a1").isSome
      = true := by
  decide

/-- C8, amended. Let `id` be an id that no entry of the active user's class
list and assignment list carries. If the active id is a key of the map,
`update(id, patch)` and `delete(id)` leave the whole state unchanged. If it
is not a key, they change one thing only: the active id becomes a key, mapped
to the empty list. This holds for classes and for assignments. -/
theorem update_delete_missing_id (st : AppState) (id : Val) (updates : Obj)
    (hC : ∀ e ∈ classes st, e "id" ≠ some id)
    (hA : ∀ e ∈ assignments st, e "id" ≠ some id) :
    ((st.classesMap (userId st)).isSome = true →
      updateClass st id updates = st ∧ deleteClass st id = st) ∧
    ((st.assignMap (userId st)).isSome = true →
      updateAssignment st id updates = st ∧ deleteAssignment st id = st) ∧
    (st.classesMap (userId st) = none →
      updateClass st id updates = { st with classesMap := st.classesMap.set (userId st) [] } ∧
      deleteClass st id = { st with classesMap := st.classesMap.set (userId st) [] }) ∧
    (st.assignMap (userId st) = none →
      updateAssignment st id updates =
        { st with assignMap := st.assignMap.set (userId st) [] } ∧
      deleteAssignment st id = { st with assignMap := st.assignMap.set (userId st) [] }) := by
  have hpC := patchEntries_no_match st.classesMap (userId st) id updates hC
  have hrC := removeEntries_no_match st.classesMap (userId st) id hC
  have hpA := patchEntries_no_match st.assignMap (userId st) id updates hA
  have hrA := removeEntries_no_match st.assignMap (userId st) id hA
  refine ⟨?_, ?_, ?_, ?_⟩
  · intro hkey
    have := ListMap.set_getOrEmpty_of_isSome _ _ hkey
    simp only [updateClass, deleteClass, hpC, hrC, this]
    exact ⟨trivial, trivial⟩
  · intro hkey
    have := ListMap.set_getOrEmpty_of_isSome _ _ hkey
    simp only [updateAssignment, deleteAssignment, hpA, hrA, this]
    exact ⟨trivial, trivial⟩
  · intro hkey
    have := ListMap.getOrEmpty_of_eq_none _ _ hkey
    simp only [updateClass, deleteClass, hpC, hrC, this]
    exact ⟨trivial, trivial⟩
  · intro hkey
    have := ListMap.getOrEmpty_of_eq_none _ _ hkey
    simp only [updateAssignment, deleteAssignment, hpA, hrA, this]
    exact ⟨trivial, trivial⟩

/-- C8 (amended) at a concrete input: user `a1` is a key of both maps, with
empty lists, and the id `x` is deleted and updated; likewise on the planner
of the examples, with three classes and three assignments, none with id `x`. -/
theorem update_delete_missing_id_witness :
    (∀ e ∈ classes stateA, e "id" ≠ some (Val.str "x")) ∧
    (∀ e ∈ assignments stateA, e "id" ≠ some (Val.str "x")) ∧
    (stateA.classesMap (userId stateA)).isSome = true ∧
    updateClass stateA (Val.str "x") mathClass = stateA ∧
    deleteClass stateA (Val.str "x") = stateA ∧
    (classes plannerState).length = 3 ∧
    (assignments plannerState).length = 3 ∧
    (∀ e ∈ classes plannerState, e "id" ≠ some (Val.str "x")) ∧
    (∀ e ∈ assignments plannerState, e "id" ≠ some (Val.str "x")) ∧
    (updateClass plannerState (Val.str "x") mathClass = plannerState ∧
      deleteClass plannerState (Val.str "x") = plannerState) ∧
    (updateAssignment plannerState (Val.str "x") mathClass = plannerState ∧
      deleteAssignment plannerState (Val.str "x") = plannerState) :=
  ⟨by decide, by decide, by decide,
    ((update_delete_missing_id stateA (Val.str "x") mathClass (by decide) (by decide)).1
      (by decide)).1,
    ((update_delete_missing_id stateA (Val.str "x") mathClass (by decide) (by decide)).1
      (by decide)).2,
    by decide, by decide, by decide, by decide,
    (update_delete_missing_id plannerState (Val.str "x") mathClass (by decide) (by decide)).1
      (by decide),
    (update_delete_missing_id plannerState (Val.str "x") mathClass (by decide) (by decide)).2.1
      (by decide)⟩

/-! ## C9, C10: clearing a partition and recreating it -/

theorem deleteAll_of_session (st : AppState) (u : User) (hsession : st.currentUser = some u) :
    deleteAll st true =
      { st with
        classesMap := st.classesMap.erase (userId st)
        assignMap := st.assignMap.erase (userId st) } := by
  simp [deleteAll, hsession]

/-- C9, the claim refuted. No session is active, so the active id is `guest`;
the guest has added a class. The clear-all handler stops at its
`if(!currentUser)` guard: `guest` is still a key of `classesMap`, with its
one entry. -/
theorem deleteAll_keeps_guest_key :
    (addClass initialState "c1" mathClass).currentUser = none ∧
    userId (addClass initialState "c1" mathClass) = "guest" ∧
    ((deleteAll (addClass initialState "c1" mathClass) true).classesMap
      (userId (addClass initialState "c1" mathClass))).isSome = true ∧
    (classes (deleteAll (addClass initialState "c1" mathClass) true)).length = 1 := by
  decide

/-- C9, amended. For every state with a logged-in user, after the (confirmed)
clear-all operation the active id is a key neither of `classesMap` nor of
`assignMap` (the key is removed, not mapped to an empty list) and every other
key keeps its list. When no session is active the operation changes nothing:
the `guest` partition is kept. -/
theorem deleteAll_spec (st : AppState) (u : User) (hsession : st.currentUser = some u) :
    (deleteAll st true).classesMap (userId st) = none ∧
    (deleteAll st true).assignMap (userId st) = none ∧
    userId (deleteAll st true) = userId st ∧
    (∀ k, k ≠ userId st →
      (deleteAll st true).classesMap k = st.classesMap k ∧
      (deleteAll st true).assignMap k = st.assignMap k) ∧
    (∀ (guestState : AppState) (confirmed : Bool), guestState.currentUser = none →
      deleteAll guestState confirmed = guestState) := by
  rw [deleteAll_of_session st u hsession]
  refine ⟨ListMap.erase_same _ _, ListMap.erase_same _ _, rfl, ?_, ?_⟩
  · intro k hk
    exact ⟨ListMap.erase_other _ _ _ hk, ListMap.erase_other _ _ _ hk⟩
  · intro guestState confirmed hnone
    unfold deleteAll
    split
    · rfl
    · simp [hnone]

/-- C9 (amended) at a concrete input: user `a1` is logged in and clears all data. -/
theorem deleteAll_spec_witness :
    stateA.currentUser = some userA ∧
    (deleteAll stateA true).classesMap (userId stateA) = none ∧
    (deleteAll stateA true).assignMap (userId stateA) = none :=
  ⟨rfl, (deleteAll_spec stateA userA rfl).1, (deleteAll_spec stateA userA rfl).2.1⟩

theorem pushEntry_of_eq_none (m : ListMap) (k : String) (entry : Obj) (h : m k = none) :
    (pushEntry m k entry).getOrEmpty k = [entry] := by
  unfold pushEntry
  rw [ListMap.getOrEmpty_set_same, ListMap.getOrEmpty_of_eq_none m k h]
  rfl

/-- C10 (lazy recreation). For every state with a logged-in user and every
partial `p`, the clear-all operation followed by `add(p)` leaves the active
user's list with exactly one entry, the one that add builds from `p` (the
generated id, for assignments `completed:false`, and over them every field of
`p`); the same holds for an add on any state in which the active id is not a
key of the map. Classes and assignments alike. -/
theorem deleteAll_then_add (st : AppState) (u : User) (hsession : st.currentUser = some u)
    (newId : String) (p : Obj) :
    classes (addClass (deleteAll st true) newId p) = [classEntry newId p] ∧
    assignments (addAssignment (deleteAll st true) newId p) = [assignmentEntry newId p] ∧
    (∀ k v, p k = some v →
      classEntry newId p k = some v ∧ assignmentEntry newId p k = some v) ∧
    (∀ other : AppState, other.classesMap (userId other) = none →
      classes (addClass other newId p) = [classEntry newId p]) ∧
    (∀ other : AppState, other.assignMap (userId other) = none →
      assignments (addAssignment other newId p) = [assignmentEntry newId p]) := by
  have hC : ∀ other : AppState, other.classesMap (userId other) = none →
      classes (addClass other newId p) = [classEntry newId p] := by
    intro other h
    exact pushEntry_of_eq_none other.classesMap (userId other) _ h
  have hA : ∀ other : AppState, other.assignMap (userId other) = none →
      assignments (addAssignment other newId p) = [assignmentEntry newId p] := by
    intro other h
    exact pushEntry_of_eq_none other.assignMap (userId other) _ h
  have hdel := deleteAll_of_session st u hsession
  refine ⟨hC _ ?_, hA _ ?_, ?_, hC, hA⟩
  · rw [hdel]; exact ListMap.erase_same _ _
  · rw [hdel]; exact ListMap.erase_same _ _
  · intro k v hk
    simp [classEntry, assignmentEntry, Obj.spread, hk]

/-- C10 at a concrete input: user `a1` clears all data and adds the Math class. -/
theorem deleteAll_then_add_witness :
    stateA.currentUser = some userA ∧
    classes (addClass (deleteAll stateA true) "c1" mathClass) = [classEntry "c1" mathClass] ∧
    assignments (addAssignment (deleteAll stateA true) "d1" mathClass) =
      [assignmentEntry "d1" mathClass] :=
  ⟨rfl, (deleteAll_then_add stateA userA rfl "c1" mathClass).1,
    (deleteAll_then_add stateA userA rfl "d1" mathClass).2.1⟩

theorem compareChars_le_iff (as bs : List Char) : compareChars as bs ≤ 0 ↔ ¬ (bs < as) := by
  induction as generalizing bs with
  | nil =>
    cases bs with
    | nil => simp [compareChars]
    | cons b bs => simp [compareChars]
  | cons a as ih =>
    cases bs with
    | nil =>
      simp only [compareChars]
      exact iff_of_false (by decide) (fun h => h (List.nil_lt_cons a as))
    | cons b bs =>
      unfold compareChars
      by_cases hab : a < b
      · simp only [if_pos hab]
        refine iff_of_true (by decide) ?_
        intro h
        rcases h with _ | h | h
        · exact lt_irrefl a hab
        · exact lt_asymm hab h
      · by_cases hba : b < a
        · simp only [if_neg hab, if_pos hba]
          refine iff_of_false (by decide) ?_
          intro h
          exact h (List.Lex.rel hba)
        · simp only [if_neg hab, if_neg hba]
          have heq : a = b := le_antisymm (not_lt.mp hba) (not_lt.mp hab)
          subst heq
          rw [ih bs]
          exact not_congr List.Lex.cons_iff.symm

theorem codePointCompare_le_iff (s t : String) : codePointCompare s t ≤ 0 ↔ s ≤ t := by
  unfold codePointCompare
  rw [compareChars_le_iff, String.le_iff_toList_le]
  exact not_lt

/-! ## C11: add appends -/

/-- C11. After `add(p)` the active user's list is the previous list (the
empty list when the key was absent) followed by exactly one new entry, so the
entries that were there keep their places; the new entry carries every field
of `p`; for an assignment its `completed` field is `false` when `p` does not
name `completed`, and the value of `p` when it does. -/
theorem add_appends (st : AppState) (newId : String) (p : Obj) :
    classes (addClass st newId p) = classes st ++ [classEntry newId p] ∧
    assignments (addAssignment st newId p) = assignments st ++ [assignmentEntry newId p] ∧
    (st.classesMap (userId st) = none → classes st = []) ∧
    (st.assignMap (userId st) = none → assignments st = []) ∧
    (∀ k v, p k = some v →
      classEntry newId p k = some v ∧ assignmentEntry newId p k = some v) ∧
    (p "completed" = none → assignmentEntry newId p "completed" = some (Val.bool false)) ∧
    (∀ v, p "completed" = some v → assignmentEntry newId p "completed" = some v) := by
  refine ⟨?_, ?_, ?_, ?_, ?_, ?_, ?_⟩
  · exact ListMap.getOrEmpty_set_same _ _ _
  · exact ListMap.getOrEmpty_set_same _ _ _
  · exact ListMap.getOrEmpty_of_eq_none _ _
  · exact ListMap.getOrEmpty_of_eq_none _ _
  · intro k v hk
    simp [classEntry, assignmentEntry, Obj.spread, hk]
  · intro hk
    simp [assignmentEntry, Obj.spread, hk, Obj.lit, Obj.set]
  · intro v hk
    simp [assignmentEntry, Obj.spread, hk]

/-! ## Sorting by a string field -/

theorem insertionSort_short {α : Type} (r : α → α → Prop) [DecidableRel r] (l : List α)
    (h : l.length ≤ 1) : l.insertionSort r = l := by
  match l, h with
  | [], _ => rfl
  | [a], _ => rfl

theorem sortByStr_of_strings (localeCompare : String → String → Int) (field : String)
    (l : List Obj) (hstr : ∀ a ∈ l, (a.strField field).isSome = true) :
    sortByStr localeCompare field l =
      some (l.insertionSort (fun a b => fieldLe localeCompare field a b = true)) := by
  unfold sortByStr
  by_cases hlen : l.length ≤ 1
  · rw [if_pos hlen, insertionSort_short _ l hlen]
  · have hall : l.all (fun o => (o.strField field).isSome) = true :=
      List.all_eq_true.mpr hstr
    rw [if_neg hlen, if_pos hall]

theorem fieldLe_iff (localeCompare : String → String → Int) (field : String) (l : List Obj)
    (hstr : ∀ a ∈ l, (a.strField field).isSome = true)
    (hlc : ∀ s ∈ l.filterMap (fun a => a.strField field),
      ∀ t ∈ l.filterMap (fun a => a.strField field), (localeCompare s t ≤ 0 ↔ s ≤ t))
    (a : Obj) (ha : a ∈ l) (b : Obj) (hb : b ∈ l) :
    fieldLe localeCompare field a b = true ↔
      (a.strField field).getD "" ≤ (b.strField field).getD "" := by
  obtain ⟨s, hs⟩ := Option.isSome_iff_exists.mp (hstr a ha)
  obtain ⟨t, ht⟩ := Option.isSome_iff_exists.mp (hstr b hb)
  have hsmem : s ∈ l.filterMap (fun a => a.strField field) :=
    List.mem_filterMap.mpr ⟨a, ha, hs⟩
  have htmem : t ∈ l.filterMap (fun a => a.strField field) :=
    List.mem_filterMap.mpr ⟨b, hb, ht⟩
  simp only [fieldLe, hs, ht, Option.getD_some, decide_eq_true_eq]
  exact hlc s hsmem t htmem

theorem sortByStr_sorted (localeCompare : String → String → Int) (field : String)
    (l : List Obj) (hstr : ∀ a ∈ l, (a.strField field).isSome = true)
    (hlc : ∀ s ∈ l.filterMap (fun a => a.strField field),
      ∀ t ∈ l.filterMap (fun a => a.strField field), (localeCompare s t ≤ 0 ↔ s ≤ t)) :
    ∃ v, sortByStr localeCompare field l = some v ∧ v.Perm l ∧
      (v.map (fun a => (a.strField field).getD "")).Sorted (fun s t => s ≤ t) := by
  refine ⟨_, sortByStr_of_strings localeCompare field l hstr,
    List.perm_insertionSort _ l, ?_⟩
  rw [List.map_insertionSort (fun a b => fieldLe localeCompare field a b = true)
    (fun (s t : String) => s ≤ t) (fun a => (a.strField field).getD "") l
    (fieldLe_iff localeCompare field l hstr hlc)]
  exact List.sorted_insertionSort (fun (s t : String) => s ≤ t) _

/-! ## C12: the per-day class views -/

/-- C12. Let the stored classes of day `d` carry a string `startTime`, and
let the host's `localeCompare` order those start times as string comparison
does (it does on `HH:MM` strings). Then `classesForSelected` with
`selectedDay = d` returns a list that is a permutation of exactly the stored
entries whose day equals `d` (nothing dropped, nothing added, duplicates
kept) and that is ordered by non-decreasing `startTime` under string
comparison; `todaysClasses` returns the same list when today's weekday name
is `d`. -/
theorem per_day_view (localeCompare : String → String → Int) (st : AppState) (d : String)
    (hstr : ∀ c ∈ classes st, c "day" = some (Val.str d) →
      (c.strField "startTime").isSome = true)
    (hlc : ∀ s ∈ ((classes st).filter (fun c => decide (c "day" = some (Val.str d)))).filterMap
        (fun c => c.strField "startTime"),
      ∀ t ∈ ((classes st).filter (fun c => decide (c "day" = some (Val.str d)))).filterMap
        (fun c => c.strField "startTime"), (localeCompare s t ≤ 0 ↔ s ≤ t)) :
    ∃ v, classesForSelected localeCompare st d = some v ∧
      v.Perm ((classes st).filter (fun c => decide (c "day" = some (Val.str d)))) ∧
      (∀ c, c ∈ v ↔ c ∈ classes st ∧ c "day" = some (Val.str d)) ∧
      (v.map (fun c => (c.strField "startTime").getD "")).Sorted (fun s t => s ≤ t) ∧
      (∀ getDay : Fin 7, todayName getDay = d →
        todaysClasses localeCompare st getDay = some v) := by
  have hstr' : ∀ c ∈ (classes st).filter (fun c => decide (c "day" = some (Val.str d))),
      (c.strField "startTime").isSome = true := by
    intro c hc
    rw [List.mem_filter] at hc
    exact hstr c hc.1 (of_decide_eq_true hc.2)
  obtain ⟨v, hv, hperm, hsorted⟩ := sortByStr_sorted localeCompare "startTime" _ hstr' hlc
  refine ⟨v, hv, hperm, ?_, hsorted, ?_⟩
  · intro c
    rw [hperm.mem_iff, List.mem_filter, decide_eq_true_eq]
  · intro getDay hday
    unfold todaysClasses
    rw [hday]
    exact hv

/-- C12 at a concrete input: the Monday view of the example schedule, where
Physics (11:00) was added before Math (09:00); the view lists 09:00 first. -/
theorem per_day_view_witness :
    (∀ c ∈ classes weekState, c "day" = some (Val.str "Monday") →
      (c.strField "startTime").isSome = true) ∧
    (classesForSelected codePointCompare weekState "Monday").map
        (fun v => v.map (fun c => c.strField "startTime")) = some [some "09:00", some "11:00"] ∧
    ∃ v, classesForSelected codePointCompare weekState "Monday" = some v ∧
      v.Perm ((classes weekState).filter
        (fun c => decide (c "day" = some (Val.str "Monday")))) ∧
      (∀ c, c ∈ v ↔ c ∈ classes weekState ∧ c "day" = some (Val.str "Monday")) ∧
      (v.map (fun c => (c.strField "startTime").getD "")).Sorted (fun s t => s ≤ t) ∧
      (∀ getDay : Fin 7, todayName getDay = "Monday" →
        todaysClasses codePointCompare weekState getDay = some v) :=
  ⟨by decide, by decide,
    per_day_view codePointCompare weekState "Monday" (by decide)
      (fun s _ t _ => codePointCompare_le_iff s t)⟩

/-! ## C13, C14, C18: the date helpers -/

theorem isOverdue_eq_true_iff (dateValue : String → Option Int) (localMidnight : Int → Int)
    (now : Now) (iso : String) :
    isOverdue dateValue localMidnight now iso = true ↔
      iso ≠ "" ∧ ∃ t, dateValue iso = some t ∧ t < localMidnight now.date := by
  unfold isOverdue
  by_cases hempty : iso = ""
  · simp [hempty]
  · rw [if_neg hempty]
    cases hvalue : dateValue iso with
    | none => simp
    | some t => simp [hempty]

theorem inNextNDays_eq_true_iff (dateValue : String → Option Int) (localMidnight : Int → Int)
    (now : Now) (iso : String) (n : Int) :
    inNextNDays dateValue localMidnight now iso n = true ↔
      iso ≠ "" ∧ ∃ t, dateValue iso = some t ∧
        0 ≤ t - localMidnight now.date ∧
        t - localMidnight now.date ≤ n * msPerDay := by
  unfold inNextNDays
  by_cases hempty : iso = ""
  · simp [hempty]
  · rw [if_neg hempty]
    cases hvalue : dateValue iso with
    | none => simp
    | some t => simp [hempty]

theorem dueDateOf_ne_empty (a : Obj) (h : dueDateOf a ≠ "") :
    (a.strField "dueDate").isSome = true := by
  unfold dueDateOf at h
  cases hs : a.strField "dueDate" with
  | none => simp [hs] at h
  | some s => rfl

/-- On a host whose local midnights are a fixed offset from UTC (no change of
daylight saving time) and which reads a due date as the local midnight of a
calendar day (`readDate`, `none` for an Invalid Date), `dueSoon` does what
its name says: it returns a list that holds an assignment exactly when its
`dueDate` is non-empty and is read as a day from today to today plus 7 days,
both included, ordered by non-decreasing `dueDate` when `localeCompare`
orders the due dates as string comparison does. With today = 2024-06-10, the
dates 2024-06-10 and 2024-06-17 are in the window, 2024-06-09 and 2024-06-18
are not. -/
theorem dueSoon_fixed_offset (localeCompare : String → String → Int)
    (readDate : String → Option Int) (offset : Int) (now : Now) (st : AppState)
    (hlc : ∀ s ∈ (assignments st).filterMap (fun a => a.strField "dueDate"),
      ∀ t ∈ (assignments st).filterMap (fun a => a.strField "dueDate"),
        (localeCompare s t ≤ 0 ↔ s ≤ t)) :
    (∀ iso : String,
      inNextNDays (midnightOf readDate (fixedOffsetMidnight offset))
        (fixedOffsetMidnight offset) now iso 7 = true ↔
      iso ≠ "" ∧ ∃ d, readDate iso = some d ∧ now.date ≤ d ∧ d ≤ now.date + 7) ∧
    (∃ v, dueSoon localeCompare (midnightOf readDate (fixedOffsetMidnight offset))
        (fixedOffsetMidnight offset) now st = some v ∧
      (∀ a, a ∈ v ↔ a ∈ assignments st ∧ dueDateOf a ≠ "" ∧
        ∃ d, readDate (dueDateOf a) = some d ∧ now.date ≤ d ∧ d ≤ now.date + 7) ∧
      (v.map dueDateOf).Sorted (fun s t => s ≤ t)) ∧
    (now.date = dayNumber 2024 6 10 →
      readDate "2024-06-10" = some (dayNumber 2024 6 10) →
      readDate "2024-06-17" = some (dayNumber 2024 6 17) →
      readDate "2024-06-09" = some (dayNumber 2024 6 9) →
      readDate "2024-06-18" = some (dayNumber 2024 6 18) →
      inNextNDays (midnightOf readDate (fixedOffsetMidnight offset))
        (fixedOffsetMidnight offset) now "2024-06-10" 7 = true ∧
      inNextNDays (midnightOf readDate (fixedOffsetMidnight offset))
        (fixedOffsetMidnight offset) now "2024-06-17" 7 = true ∧
      inNextNDays (midnightOf readDate (fixedOffsetMidnight offset))
        (fixedOffsetMidnight offset) now "2024-06-09" 7 = false ∧
      inNextNDays (midnightOf readDate (fixedOffsetMidnight offset))
        (fixedOffsetMidnight offset) now "2024-06-18" 7 = false) := by
  have hwin : ∀ iso : String,
      inNextNDays (midnightOf readDate (fixedOffsetMidnight offset))
        (fixedOffsetMidnight offset) now iso 7 = true ↔
      iso ≠ "" ∧ ∃ d, readDate iso = some d ∧ now.date ≤ d ∧ d ≤ now.date + 7 := by
    intro iso
    rw [inNextNDays_eq_true_iff]
    have harith : ∀ d : Int,
        (0 ≤ fixedOffsetMidnight offset d - fixedOffsetMidnight offset now.date ∧
          fixedOffsetMidnight offset d - fixedOffsetMidnight offset now.date ≤ 7 * msPerDay) ↔
        (now.date ≤ d ∧ d ≤ now.date + 7) := by
      intro d
      simp only [fixedOffsetMidnight, msPerDay]
      omega
    constructor
    · rintro ⟨h0, t, ht, h12⟩
      cases hread : readDate iso with
      | none => simp [midnightOf, hread] at ht
      | some d =>
        simp only [midnightOf, hread, Option.map_some', Option.some.injEq] at ht
        subst ht
        exact ⟨h0, d, rfl, (harith d).mp h12⟩
    · rintro ⟨h0, d, hd, h12⟩
      exact ⟨h0, fixedOffsetMidnight offset d, by simp [midnightOf, hd], (harith d).mpr h12⟩
  refine ⟨hwin, ?_, ?_⟩
  · have hmemf : ∀ a, a ∈ (assignments st).filter
          (fun a => inNextNDays (midnightOf readDate (fixedOffsetMidnight offset))
            (fixedOffsetMidnight offset) now (dueDateOf a) 7) ↔
        a ∈ assignments st ∧ dueDateOf a ≠ "" ∧
          ∃ d, readDate (dueDateOf a) = some d ∧ now.date ≤ d ∧ d ≤ now.date + 7 := by
      intro a
      rw [List.mem_filter, hwin]
    have hstr : ∀ a ∈ (assignments st).filter
          (fun a => inNextNDays (midnightOf readDate (fixedOffsetMidnight offset))
            (fixedOffsetMidnight offset) now (dueDateOf a) 7),
        (a.strField "dueDate").isSome = true := by
      intro a ha
      exact dueDateOf_ne_empty a ((hmemf a).mp ha).2.1
    have hlc' : ∀ s ∈ ((assignments st).filter
          (fun a => inNextNDays (midnightOf readDate (fixedOffsetMidnight offset))
            (fixedOffsetMidnight offset) now (dueDateOf a) 7)).filterMap
          (fun a => a.strField "dueDate"),
        ∀ t ∈ ((assignments st).filter
          (fun a => inNextNDays (midnightOf readDate (fixedOffsetMidnight offset))
            (fixedOffsetMidnight offset) now (dueDateOf a) 7)).filterMap
          (fun a => a.strField "dueDate"), (localeCompare s t ≤ 0 ↔ s ≤ t) := by
      intro s hs t ht
      obtain ⟨a, ha, has⟩ := List.mem_filterMap.mp hs
      obtain ⟨b, hb, hbt⟩ := List.mem_filterMap.mp ht
      exact hlc s (List.mem_filterMap.mpr ⟨a, (List.mem_filter.mp ha).1, has⟩)
        t (List.mem_filterMap.mpr ⟨b, (List.mem_filter.mp hb).1, hbt⟩)
    obtain ⟨v, hv, hperm, hsorted⟩ := sortByStr_sorted localeCompare "dueDate" _ hstr hlc'
    refine ⟨v, hv, ?_, hsorted⟩
    intro a
    rw [hperm.mem_iff, hmemf]
  · intro htoday h10 h17 h09 h18
    have d10 : dayNumber 2024 6 10 = 19884 := by decide
    have d17 : dayNumber 2024 6 17 = 19891 := by decide
    have d09 : dayNumber 2024 6 9 = 19883 := by decide
    have d18 : dayNumber 2024 6 18 = 19892 := by decide
    rw [d10] at htoday h10
    rw [d17] at h17
    rw [d09] at h09
    rw [d18] at h18
    refine ⟨?_, ?_, ?_, ?_⟩
    · exact (hwin _).mpr ⟨by decide, 19884, h10, by omega, by omega⟩
    · exact (hwin _).mpr ⟨by decide, 19891, h17, by omega, by omega⟩
    · rw [Bool.eq_false_iff]
      intro h
      obtain ⟨_, d, hd, h1, h2⟩ := (hwin _).mp h
      rw [h09] at hd
      cases hd
      omega
    · rw [Bool.eq_false_iff]
      intro h
      obtain ⟨_, d, hd, h1, h2⟩ := (hwin _).mp h
      rw [h18] at hd
      cases hd
      omega

/-- C13, the code at the failing input. The host is in America/New_York and
today is 2024-10-28 (day 20024); daylight saving time ends on 3 November, so
the local midnight of 2024-11-04, seven days later, is 7 days and 1 hour
after today's. `inNextNDays("2024-11-04", 7)` is false and `dueSoon` is
empty, though the assignment is due on today plus 7 days; on a host in UTC
the same assignment is listed. -/
theorem dueSoon_misses_seventh_day :
    parseIsoDate "2024-10-28" = some 20024 ∧
    parseIsoDate "2024-11-04" = some (20024 + 7) ∧
    newYorkMidnight (20024 + 7) - newYorkMidnight 20024 = 7 * msPerDay + 1000 * 60 * 60 ∧
    isoDateValue newYorkMidnight "2024-11-04" = some (newYorkMidnight (20024 + 7)) ∧
    inNextNDays (isoDateValue newYorkMidnight) newYorkMidnight ⟨20024, 0⟩ "2024-11-04" 7 =
      false ∧
    (assignments autumnState).map dueDateOf = ["2024-11-04"] ∧
    (dueSoon codePointCompare (isoDateValue newYorkMidnight) newYorkMidnight ⟨20024, 0⟩
      autumnState).map List.length = some 0 ∧
    (dueSoon codePointCompare (isoDateValue utcMidnight) utcMidnight ⟨20024, 0⟩
      autumnState).map List.length = some 1 := by
  decide

theorem assignments_doneState : assignments doneState = [essayDone] := rfl

theorem sortByStr_singleton (localeCompare : String → String → Int) (field : String)
    (a : Obj) : sortByStr localeCompare field [a] = some [a] := by
  simp [sortByStr]

/-- C14. Whatever the host reads from the string (`dateValue`),
`isOverdue(dueDate)` is true exactly when `dueDate` is non-empty and is read
as a time before today's local midnight; it is false for the empty string and
for an Invalid Date. When the host reads `dueDate` as the local midnight of a
calendar day `d` (what `new Date(iso+'T00:00:00')` is for a date), and local
midnights increase with the date, `isOverdue(dueDate)` is true exactly when
`dueDate` is non-empty and `d` is strictly before today. The answer depends
on the date of `now` only, not on the time of day. With today = 2024-06-10,
`isOverdue("2024-06-10")` is false and `isOverdue("2024-06-09")` is true; the
styling condition `isOverdue(a.dueDate) && !a.completed` is true for the
entry due 2024-06-09 while it is not completed and false once it is
completed, and the completed entry is still returned by `assignmentsFiltered`
with the filter "completed". -/
theorem isOverdue_spec (dateValue : String → Option Int) (localMidnight : Int → Int)
    (hmono : StrictMono localMidnight) (now : Now) (iso : String) :
    (isOverdue dateValue localMidnight now iso = true ↔
      iso ≠ "" ∧ ∃ t, dateValue iso = some t ∧ t < localMidnight now.date) ∧
    (∀ d : Int, dateValue iso = some (localMidnight d) →
      (isOverdue dateValue localMidnight now iso = true ↔ iso ≠ "" ∧ d < now.date)) ∧
    (iso = "" ∨ dateValue iso = none → isOverdue dateValue localMidnight now iso = false) ∧
    (∀ later : Now, later.date = now.date →
      isOverdue dateValue localMidnight later iso = isOverdue dateValue localMidnight now iso) ∧
    (now.date = dayNumber 2024 6 10 →
      dateValue "2024-06-10" = some (localMidnight (dayNumber 2024 6 10)) →
      dateValue "2024-06-09" = some (localMidnight (dayNumber 2024 6 9)) →
      isOverdue dateValue localMidnight now "2024-06-10" = false ∧
      isOverdue dateValue localMidnight now "2024-06-09" = true ∧
      overdueStyle dateValue localMidnight now essayEntry = true ∧
      overdueStyle dateValue localMidnight now essayDone = false ∧
      assignments doneState = [essayDone] ∧
      ∀ localeCompare : String → String → Int,
        assignmentsFiltered localeCompare doneState "completed" = some [essayDone]) := by
  have hday : ∀ (s : String) (d : Int), dateValue s = some (localMidnight d) →
      (isOverdue dateValue localMidnight now s = true ↔ s ≠ "" ∧ d < now.date) := by
    intro s d hd
    rw [isOverdue_eq_true_iff]
    constructor
    · rintro ⟨h0, t, ht, hlt⟩
      rw [hd] at ht
      cases ht
      exact ⟨h0, hmono.lt_iff_lt.mp hlt⟩
    · rintro ⟨h0, hlt⟩
      exact ⟨h0, localMidnight d, hd, hmono hlt⟩
  refine ⟨isOverdue_eq_true_iff dateValue localMidnight now iso, hday iso, ?_, ?_, ?_⟩
  · intro h
    rw [Bool.eq_false_iff]
    intro htrue
    obtain ⟨h0, t, ht, _⟩ := (isOverdue_eq_true_iff _ _ _ _).mp htrue
    rcases h with h | h
    · exact h0 h
    · rw [h] at ht
      cases ht
  · intro later hlater
    unfold isOverdue
    rw [hlater]
  · intro htoday h10 h09
    have d10 : dayNumber 2024 6 10 = 19884 := by decide
    have d09 : dayNumber 2024 6 9 = 19883 := by decide
    have hover : isOverdue dateValue localMidnight now "2024-06-09" = true :=
      (hday _ _ h09).mpr ⟨by decide, by omega⟩
    have hdue : dueDateOf essayEntry = "2024-06-09" := by decide
    have hdueDone : dueDateOf essayDone = "2024-06-09" := by decide
    have hpending : truthy (essayEntry "completed") = false := by decide
    have hdone : truthy (essayDone "completed") = true := by decide
    refine ⟨?_, hover, ?_, ?_, assignments_doneState, ?_⟩
    · rw [Bool.eq_false_iff]
      intro h
      have := ((hday _ _ h10).mp h).2
      omega
    · simp [overdueStyle, hdue, hover, hpending]
    · simp [overdueStyle, hdone]
    · intro localeCompare
      unfold assignmentsFiltered
      rw [assignments_doneState, sortByStr_singleton]
      simp [hdone]

theorem strictMono_utcMidnight : StrictMono utcMidnight := by
  intro a b hab
  simp only [utcMidnight, msPerDay]
  omega

/-- C14 at a concrete input: a V8 host in UTC, today 2024-06-10 at noon. The
due date 2024-06-09 is overdue, 2024-06-10 is not; `2024-02-30`, which V8
reads as 2024-03-01, and `+002024-06-09` are overdue. -/
theorem isOverdue_spec_witness :
    StrictMono utcMidnight ∧
    dayNumber 2024 6 10 = 19884 ∧
    isoDateValue utcMidnight "2024-06-09" = some (utcMidnight (dayNumber 2024 6 9)) ∧
    isoDateValue utcMidnight "2024-02-30" = some (utcMidnight (dayNumber 2024 3 1)) ∧
    isOverdue (isoDateValue utcMidnight) utcMidnight ⟨19884, 43200000⟩ "2024-02-30" = true ∧
    isOverdue (isoDateValue utcMidnight) utcMidnight ⟨19884, 43200000⟩ "+002024-06-09" = true ∧
    (isOverdue (isoDateValue utcMidnight) utcMidnight ⟨19884, 43200000⟩ "2024-06-09" = true ↔
      "2024-06-09" ≠ "" ∧ dayNumber 2024 6 9 < 19884) ∧
    isOverdue (isoDateValue utcMidnight) utcMidnight ⟨19884, 43200000⟩ "2024-06-10" = false ∧
    isOverdue (isoDateValue utcMidnight) utcMidnight ⟨19884, 43200000⟩ "2024-06-09" = true ∧
    overdueStyle (isoDateValue utcMidnight) utcMidnight ⟨19884, 43200000⟩ essayEntry = true ∧
    overdueStyle (isoDateValue utcMidnight) utcMidnight ⟨19884, 43200000⟩ essayDone = false :=
  ⟨strictMono_utcMidnight, by decide, by decide, by decide, by decide, by decide,
    (isOverdue_spec (isoDateValue utcMidnight) utcMidnight strictMono_utcMidnight
      ⟨19884, 43200000⟩ "2024-06-09").2.1 (dayNumber 2024 6 9) (by decide),
    ((isOverdue_spec (isoDateValue utcMidnight) utcMidnight strictMono_utcMidnight
      ⟨19884, 43200000⟩ "2024-06-09").2.2.2.2 (by decide) (by decide) (by decide)).1,
    ((isOverdue_spec (isoDateValue utcMidnight) utcMidnight strictMono_utcMidnight
      ⟨19884, 43200000⟩ "2024-06-09").2.2.2.2 (by decide) (by decide) (by decide)).2.1,
    ((isOverdue_spec (isoDateValue utcMidnight) utcMidnight strictMono_utcMidnight
      ⟨19884, 43200000⟩ "2024-06-09").2.2.2.2 (by decide) (by decide) (by decide)).2.2.1,
    ((isOverdue_spec (isoDateValue utcMidnight) utcMidnight strictMono_utcMidnight
      ⟨19884, 43200000⟩ "2024-06-09").2.2.2.2 (by decide) (by decide) (by decide)).2.2.2.1⟩

/-- C18. For every `dueDate` string, every today and every `n`, and whatever
the host reads from the string, `isOverdue(dueDate)` and
`inNextNDays(dueDate, n)` are never both true: the first needs the due time
before today's midnight, the second not before it. Hence `dueSoon` always
returns a list, and no entry of it satisfies the styling condition
`isOverdue(a.dueDate) && !a.completed` of the dashboard. -/
theorem overdue_dueSoon_exclusive (dateValue : String → Option Int)
    (localMidnight : Int → Int) (now : Now) (iso : String) (n : Int) :
    ¬ (isOverdue dateValue localMidnight now iso = true ∧
      inNextNDays dateValue localMidnight now iso n = true) ∧
    (∀ (localeCompare : String → String → Int) (st : AppState),
      ∃ v, dueSoon localeCompare dateValue localMidnight now st = some v ∧
        (∀ a, a ∈ v ↔ a ∈ assignments st ∧
          inNextNDays dateValue localMidnight now (dueDateOf a) 7 = true) ∧
        ∀ a ∈ v, isOverdue dateValue localMidnight now (dueDateOf a) = false ∧
          overdueStyle dateValue localMidnight now a = false) := by
  have hex : ∀ (s : String) (m : Int),
      ¬ (isOverdue dateValue localMidnight now s = true ∧
        inNextNDays dateValue localMidnight now s m = true) := by
    intro s m
    rw [isOverdue_eq_true_iff, inNextNDays_eq_true_iff]
    rintro ⟨⟨_, t, ht, hlt⟩, ⟨_, u, hu, hge, _⟩⟩
    rw [ht] at hu
    cases hu
    omega
  refine ⟨hex iso n, ?_⟩
  intro localeCompare st
  have hstr : ∀ a ∈ (assignments st).filter
        (fun a => inNextNDays dateValue localMidnight now (dueDateOf a) 7),
      (a.strField "dueDate").isSome = true := by
    intro a ha
    have hin := (List.mem_filter.mp ha).2
    exact dueDateOf_ne_empty a ((inNextNDays_eq_true_iff _ _ _ _ _).mp hin).1
  refine ⟨_, sortByStr_of_strings localeCompare "dueDate" _ hstr, ?_, ?_⟩
  · intro a
    rw [List.mem_insertionSort, List.mem_filter]
  · intro a ha
    rw [List.mem_insertionSort, List.mem_filter] at ha
    have hnot : isOverdue dateValue localMidnight now (dueDateOf a) = false := by
      rw [Bool.eq_false_iff]
      intro h
      exact hex _ 7 ⟨h, ha.2⟩
    exact ⟨hnot, by simp [overdueStyle, hnot]⟩

/-! ## C15: the filtered assignment lists -/

/-- C15. Let every stored assignment carry a string `dueDate`, and let the
host's `localeCompare` order the due dates as string comparison does (it does
on `YYYY-MM-DD` strings and the empty string). Then `assignmentsFiltered`
with "all" returns a permutation of the stored assignments ordered by
non-decreasing `dueDate`; with "pending" and "completed" it returns the
sub-sequences of that list whose `completed` is falsy and truthy; every entry
of "all" is in exactly one of the two, no entry is in both, and "all" is a
permutation of the two put together, each of them ordered by `dueDate`. -/
theorem assignmentsFiltered_partition (localeCompare : String → String → Int)
    (st : AppState)
    (hstr : ∀ a ∈ assignments st, (a.strField "dueDate").isSome = true)
    (hlc : ∀ s ∈ (assignments st).filterMap (fun a => a.strField "dueDate"),
      ∀ t ∈ (assignments st).filterMap (fun a => a.strField "dueDate"),
        (localeCompare s t ≤ 0 ↔ s ≤ t)) :
    ∃ all pending completed : List Obj,
      assignmentsFiltered localeCompare st "all" = some all ∧
      assignmentsFiltered localeCompare st "pending" = some pending ∧
      assignmentsFiltered localeCompare st "completed" = some completed ∧
      all.Perm (assignments st) ∧
      (all.map dueDateOf).Sorted (fun s t => s ≤ t) ∧
      pending = all.filter (fun a => !truthy (a "completed")) ∧
      completed = all.filter (fun a => truthy (a "completed")) ∧
      pending.Sublist all ∧ completed.Sublist all ∧
      (∀ a ∈ all, (a ∈ pending ∧ a ∉ completed) ∨ (a ∈ completed ∧ a ∉ pending)) ∧
      (∀ a, ¬ (a ∈ pending ∧ a ∈ completed)) ∧
      all.Perm (pending ++ completed) ∧
      (pending.map dueDateOf).Sorted (fun s t => s ≤ t) ∧
      (completed.map dueDateOf).Sorted (fun s t => s ≤ t) := by
  obtain ⟨all, hall, hperm, hsorted⟩ := sortByStr_sorted localeCompare "dueDate" _ hstr hlc
  have hsorted' : (all.map dueDateOf).Sorted (fun s t => s ≤ t) := hsorted
  refine ⟨all, all.filter (fun a => !truthy (a "completed")),
    all.filter (fun a => truthy (a "completed")), ?_, ?_, ?_, hperm, hsorted', rfl, rfl,
    List.filter_sublist _, List.filter_sublist _, ?_, ?_, ?_, ?_, ?_⟩
  · simp [assignmentsFiltered, hall]
  · simp [assignmentsFiltered, hall]
  · simp [assignmentsFiltered, hall]
  · intro a ha
    cases hc : truthy (a "completed") with
    | false =>
      left
      simp [List.mem_filter, ha, hc]
    | true =>
      right
      simp [List.mem_filter, ha, hc]
  · intro a
    simp only [List.mem_filter]
    rintro ⟨⟨_, h1⟩, ⟨_, h2⟩⟩
    simp [h2] at h1
  · exact ((List.filter_append_perm (fun a => truthy (a "completed")) all).symm.trans
      List.perm_append_comm)
  · exact List.Pairwise.sublist ((List.filter_sublist all).map dueDateOf) hsorted'
  · exact List.Pairwise.sublist ((List.filter_sublist all).map dueDateOf) hsorted'

/-- C15 at a concrete input: the example list, stored in the order 06-20,
06-12 (completed), 06-15. -/
theorem assignmentsFiltered_partition_witness :
    (∀ a ∈ assignments homeworkState, (a.strField "dueDate").isSome = true) ∧
    (assignmentsFiltered codePointCompare homeworkState "all").map
        (fun v => v.map dueDateOf) = some ["2024-06-12", "2024-06-15", "2024-06-20"] ∧
    (assignmentsFiltered codePointCompare homeworkState "pending").map
        (fun v => v.map dueDateOf) = some ["2024-06-15", "2024-06-20"] ∧
    (assignmentsFiltered codePointCompare homeworkState "completed").map
        (fun v => v.map dueDateOf) = some ["2024-06-12"] ∧
    ∃ all pending completed : List Obj,
      assignmentsFiltered codePointCompare homeworkState "all" = some all ∧
      assignmentsFiltered codePointCompare homeworkState "pending" = some pending ∧
      assignmentsFiltered codePointCompare homeworkState "completed" = some completed ∧
      all.Perm (assignments homeworkState) ∧
      (all.map dueDateOf).Sorted (fun s t => s ≤ t) ∧
      pending = all.filter (fun a => !truthy (a "completed")) ∧
      completed = all.filter (fun a => truthy (a "completed")) ∧
      pending.Sublist all ∧ completed.Sublist all ∧
      (∀ a ∈ all, (a ∈ pending ∧ a ∉ completed) ∨ (a ∈ completed ∧ a ∉ pending)) ∧
      (∀ a, ¬ (a ∈ pending ∧ a ∈ completed)) ∧
      all.Perm (pending ++ completed) ∧
      (pending.map dueDateOf).Sorted (fun s t => s ≤ t) ∧
      (completed.map dueDateOf).Sorted (fun s t => s ≤ t) :=
  ⟨by decide, by decide, by decide, by decide,
    assignmentsFiltered_partition codePointCompare homeworkState (by decide)
      (fun s _ t _ => codePointCompare_le_iff s t)⟩

/-! ## C16: the user directory under sequences of operations -/

theorem register_users (st : AppState) (newId username password name : String) :
    (register st newId username password name).2.users = st.users ∨
    ((¬ ∃ u ∈ st.users, u.username = username) ∧
      (register st newId username password name).2.users =
        st.users ++ [registeredUser newId username password name]) := by
  unfold register
  by_cases hempty : username = "" ∨ password = ""
  · rw [if_pos hempty]
    exact Or.inl rfl
  · rw [if_neg hempty]
    by_cases hfind : (st.users.find? (fun u => decide (u.username = username))).isSome = true
    · rw [if_pos hfind]
      exact Or.inl rfl
    · rw [if_neg hfind]
      exact Or.inr ⟨fun h => hfind ((find_username_isSome st.users username).mpr h), rfl⟩

theorem login_users (st : AppState) (username password : String) :
    (login st username password).2.users = st.users := by
  unfold login
  split <;> rfl

theorem persistDark_users (st : AppState) :
    (persistDark st).users.map User.identity = st.users.map User.identity ∧
    (persistDark st).users.map User.username = st.users.map User.username := by
  unfold persistDark
  cases st.currentUser with
  | none => exact ⟨rfl, rfl⟩
  | some cu =>
    simp only [List.map_map]
    constructor
    · apply List.map_congr_left
      intro u _
      simp only [Function.comp]
      split <;> rfl
    · apply List.map_congr_left
      intro u _
      simp only [Function.comp]
      split <;> rfl

theorem adoptDark_users (st : AppState) : (adoptDark st).users = st.users := by
  unfold adoptDark
  split <;> rfl

theorem step_identity_extends (st : AppState) (op : Op) :
    st.users.map User.identity <+: (step st op).users.map User.identity := by
  cases op with
  | register newId username password name =>
    rcases register_users st newId username password name with h | ⟨_, h⟩
    · simp only [step, h]
      exact List.prefix_refl _
    · simp only [step, h, List.map_append]
      exact List.prefix_append _ _
  | login username password =>
    simp only [step, login_users]
    exact List.prefix_refl _
  | logout => exact List.prefix_refl _
  | setDark value => exact List.prefix_refl _
  | adoptDark =>
    simp only [step, adoptDark_users]
    exact List.prefix_refl _
  | persistDark =>
    simp only [step, (persistDark_users st).1]
    exact List.prefix_refl _

theorem step_usernames_nodup (st : AppState) (op : Op)
    (h : (st.users.map User.username).Nodup) :
    ((step st op).users.map User.username).Nodup := by
  cases op with
  | register newId username password name =>
    rcases register_users st newId username password name with h1 | ⟨hnew, h1⟩
    · simp only [step, h1]
      exact h
    · simp only [step, h1, List.map_append, List.map_cons, List.map_nil]
      rw [List.nodup_append]
      refine ⟨h, List.nodup_singleton _, ?_⟩
      rw [List.disjoint_singleton]
      intro hmem
      obtain ⟨u, hu, hname⟩ := List.mem_map.mp hmem
      exact hnew ⟨u, hu, hname⟩
  | login username password =>
    simp only [step, login_users]
    exact h
  | logout => exact h
  | setDark value => exact h
  | adoptDark =>
    simp only [step, adoptDark_users]
    exact h
  | persistDark =>
    simp only [step, (persistDark_users st).2]
    exact h

theorem run_usernames_nodup (ops : List Op) (st : AppState)
    (h : (st.users.map User.username).Nodup) :
    ((run st ops).users.map User.username).Nodup := by
  induction ops generalizing st with
  | nil => exact h
  | cons op ops ih => exact ih (step st op) (step_usernames_nodup st op h)

theorem run_identity_extends (ops : List Op) (st : AppState) :
    st.users.map User.identity <+: (run st ops).users.map User.identity := by
  induction ops generalizing st with
  | nil => exact List.prefix_refl _
  | cons op ops ih => exact (step_identity_extends st op).trans (ih (step st op))

/-- C16. Starting from an empty user list, after any finite sequence of
`register`, `login`, `logout`, theme changes and theme effects (accepted or
rejected), no two stored users have the same username; and no user is ever
removed: whatever operations follow, the stored users stay where they are in
the list, with the same id, username, password and name, and later users
come after them. -/
theorem usernames_unique (st0 : AppState) (hempty : st0.users = []) (ops : List Op) :
    ((run st0 ops).users.map User.username).Nodup ∧
    (∀ more : List Op,
      (run st0 ops).users.map User.identity <+:
        (run st0 (ops ++ more)).users.map User.identity) ∧
    (∀ more : List Op, ∀ u ∈ (run st0 ops).users,
      ∃ v ∈ (run st0 (ops ++ more)).users, v.identity = u.identity) := by
  have hpre : ∀ more : List Op,
      (run st0 ops).users.map User.identity <+:
        (run st0 (ops ++ more)).users.map User.identity := by
    intro more
    have hrun : run st0 (ops ++ more) = run (run st0 ops) more := by
      simp [run, List.foldl_append]
    rw [hrun]
    exact run_identity_extends more (run st0 ops)
  refine ⟨run_usernames_nodup ops st0 (by simp [hempty]), hpre, ?_⟩
  intro more u hu
  have hmem : u.identity ∈ (run st0 (ops ++ more)).users.map User.identity :=
    (hpre more).subset (List.mem_map_of_mem User.identity hu)
  obtain ⟨v, hv, hvid⟩ := List.mem_map.mp hmem
  exact ⟨v, hv, hvid⟩

/-- C16 at a concrete input: "alice" registers, "alice" is refused a second
time, "bob" registers, switches to the dark theme, the effect stores it, and
"alice" logs in. -/
theorem usernames_unique_witness :
    initialState.users = [] ∧
    (run initialState
      [Op.register "u1" "alice" "pw" "", Op.register "u2" "alice" "pw2" "",
        Op.register "u3" "bob" "pw" "Bob", Op.setDark true, Op.persistDark,
        Op.login "alice" "pw"]).users.map User.username = ["alice", "bob"] ∧
    ((run initialState
      [Op.register "u1" "alice" "pw" "", Op.register "u2" "alice" "pw2" "",
        Op.register "u3" "bob" "pw" "Bob", Op.setDark true, Op.persistDark,
        Op.login "alice" "pw"]).users.map User.username).Nodup :=
  ⟨rfl, by decide,
    (usernames_unique initialState rfl
      [Op.register "u1" "alice" "pw" "", Op.register "u2" "alice" "pw2" "",
        Op.register "u3" "bob" "pw" "Bob", Op.setDark true, Op.persistDark,
        Op.login "alice" "pw"]).1⟩

/-! ## C17: the ids of a list -/

theorem spread_id_of_none (c q : Obj) (hq : q "id" = none) : Obj.spread c q "id" = c "id" := by
  simp [Obj.spread, hq]

/-- C17, the claim refuted. The guest list holds one class with id `c1`.
`addClass({id:"c1"})` with the fresh generated id `c2` creates an entry whose
id is `c1`, not `c2`, and the ids of the list are `c1`, `c1`. And on the list
with ids `c1`, `c2`, `updateClass("c1", {id:"c2"})` leaves the ids `c2`,
`c2`. -/
theorem caller_id_overrides :
    ((classes (addClass initialState "c1" Obj.empty)).map (fun e => e "id")).Nodup ∧
    (∀ e ∈ classes (addClass initialState "c1" Obj.empty), e "id" ≠ some (Val.str "c2")) ∧
    classEntry "c2" (Obj.lit [("id", Val.str "c1")]) "id" = some (Val.str "c1") ∧
    (classes (addClass (addClass initialState "c1" Obj.empty) "c2"
        (Obj.lit [("id", Val.str "c1")]))).map (fun e => e "id") =
      [some (Val.str "c1"), some (Val.str "c1")] ∧
    (classes (addClass (addClass initialState "c1" Obj.empty) "c2" Obj.empty)).map
        (fun e => e "id") = [some (Val.str "c1"), some (Val.str "c2")] ∧
    (classes (updateClass (addClass (addClass initialState "c1" Obj.empty) "c2" Obj.empty)
        (Val.str "c1") (Obj.lit [("id", Val.str "c2")]))).map (fun e => e "id") =
      [some (Val.str "c2"), some (Val.str "c2")] := by
  decide

theorem push_ids_nodup (m : ListMap) (k : String) (entry : Obj) (i : Val)
    (hid : entry "id" = some i)
    (hnodup : ((m.getOrEmpty k).map (fun e => e "id")).Nodup)
    (hfresh : ∀ e ∈ m.getOrEmpty k, e "id" ≠ some i) :
    (((pushEntry m k entry).getOrEmpty k).map (fun e => e "id")).Nodup := by
  unfold pushEntry
  rw [ListMap.getOrEmpty_set_same, List.map_append, List.nodup_append]
  refine ⟨hnodup, List.nodup_singleton _, ?_⟩
  simp only [List.map_cons, List.map_nil, List.disjoint_singleton]
  intro hmem
  obtain ⟨e, he, heq⟩ := List.mem_map.mp hmem
  exact hfresh e he (heq.trans hid)

theorem patch_ids_nodup (m : ListMap) (k : String) (id : Val) (q : Obj)
    (hq : q "id" = none)
    (hnodup : ((m.getOrEmpty k).map (fun e => e "id")).Nodup) :
    (((patchEntries m k id q).getOrEmpty k).map (fun e => e "id")).Nodup := by
  unfold patchEntries
  rw [ListMap.getOrEmpty_set_same, List.map_map]
  have hsame : (m.getOrEmpty k).map
      ((fun e => e "id") ∘ fun c => if c "id" = some id then Obj.spread c q else c) =
      (m.getOrEmpty k).map (fun e => e "id") := by
    apply List.map_congr_left
    intro c _
    simp only [Function.comp]
    split
    · exact spread_id_of_none c q hq
    · rfl
  rw [hsame]
  exact hnodup

theorem remove_ids_nodup (m : ListMap) (k : String) (id : Val)
    (hnodup : ((m.getOrEmpty k).map (fun e => e "id")).Nodup) :
    (((removeEntries m k id).getOrEmpty k).map (fun e => e "id")).Nodup := by
  unfold removeEntries
  rw [ListMap.getOrEmpty_set_same]
  exact hnodup.sublist ((List.filter_sublist _).map _)

/-- C17, amended. Let the ids in the active user's list be pairwise distinct,
and let neither the partial `p` nor the patch `q` name the field `id`. Then
the entry that `add(p)` creates has the generated id, and the ids of the list
are still pairwise distinct after `add(p)` with a generated id that no entry
of the list carries, after `update(id, q)` and after `delete(id)`. This holds
for classes and for assignments. -/
theorem entry_ids_distinct (st : AppState) (newId : String) (p q : Obj) (id : Val)
    (hp : p "id" = none) (hq : q "id" = none)
    (hC : ((classes st).map (fun e => e "id")).Nodup)
    (hA : ((assignments st).map (fun e => e "id")).Nodup)
    (hfreshC : ∀ e ∈ classes st, e "id" ≠ some (Val.str newId))
    (hfreshA : ∀ e ∈ assignments st, e "id" ≠ some (Val.str newId)) :
    classEntry newId p "id" = some (Val.str newId) ∧
    assignmentEntry newId p "id" = some (Val.str newId) ∧
    ((classes (addClass st newId p)).map (fun e => e "id")).Nodup ∧
    ((classes (updateClass st id q)).map (fun e => e "id")).Nodup ∧
    ((classes (deleteClass st id)).map (fun e => e "id")).Nodup ∧
    ((assignments (addAssignment st newId p)).map (fun e => e "id")).Nodup ∧
    ((assignments (updateAssignment st id q)).map (fun e => e "id")).Nodup ∧
    ((assignments (deleteAssignment st id)).map (fun e => e "id")).Nodup := by
  have hidC : classEntry newId p "id" = some (Val.str newId) := by
    simp [classEntry, Obj.spread, hp, Obj.lit, Obj.set]
  have hidA : assignmentEntry newId p "id" = some (Val.str newId) := by
    simp [assignmentEntry, Obj.spread, hp, Obj.lit, Obj.set]
  exact ⟨hidC, hidA,
    push_ids_nodup st.classesMap (userId st) _ _ hidC hC hfreshC,
    patch_ids_nodup st.classesMap (userId st) id q hq hC,
    remove_ids_nodup st.classesMap (userId st) id hC,
    push_ids_nodup st.assignMap (userId st) _ _ hidA hA hfreshA,
    patch_ids_nodup st.assignMap (userId st) id q hq hA,
    remove_ids_nodup st.assignMap (userId st) id hA⟩

/-- C17 (amended) at a concrete input: the example planner of "alice"
(classes `c1`, `c2`, `c3`, assignments `h1`, `h2`, `h3`), the fresh id `n1`,
a class form as partial and a subject as patch. -/
theorem entry_ids_distinct_witness :
    mathClass "id" = none ∧
    ((classes plannerState).map (fun e => e "id")).Nodup ∧
    (∀ e ∈ classes plannerState, e "id" ≠ some (Val.str "n1")) ∧
    classEntry "n1" mathClass "id" = some (Val.str "n1") ∧
    assignmentEntry "n1" mathClass "id" = some (Val.str "n1") ∧
    ((classes (addClass plannerState "n1" mathClass)).map (fun e => e "id")).Nodup ∧
    ((classes (updateClass plannerState (Val.str "c2")
      (Obj.lit [("subject", Val.str "Algebra")]))).map (fun e => e "id")).Nodup ∧
    ((classes (deleteClass plannerState (Val.str "c2"))).map (fun e => e "id")).Nodup ∧
    ((assignments (addAssignment plannerState "n1" mathClass)).map (fun e => e "id")).Nodup ∧
    ((assignments (updateAssignment plannerState (Val.str "c2")
      (Obj.lit [("subject", Val.str "Algebra")]))).map (fun e => e "id")).Nodup ∧
    ((assignments (deleteAssignment plannerState (Val.str "c2"))).map
      (fun e => e "id")).Nodup :=
  ⟨by decide, by decide, by decide,
    entry_ids_distinct plannerState "n1" mathClass (Obj.lit [("subject", Val.str "Algebra")])
      (Val.str "c2") (by decide) (by decide) (by decide) (by decide) (by decide) (by decide)⟩

end EduTrack
